/-
Verification of the YouTube comment sentiment-analysis ingestion pipeline
(`backend/app`): text normalization (`PreprocessingService`), label
reconciliation and batch classification (`SentimentService`), comment
fetching (`YouTubeCommentService`), idempotent persistence
(`CommentRepository.bulk_create`) and the orchestrating
`AnalysisService.analyze_youtube_video` aggregate step.

Strings are modelled as `List Char`; the Python regular expressions used by
the code are embedded as recursive functions with the same leftmost/greedy
semantics, over the ASCII character classes the patterns use (`\w` is
modelled as `[A-Za-z0-9_]`, `\s` as the six ASCII whitespace characters;
Python's Unicode-aware variants agree with this on ASCII text, which is all
the proofs and counterexamples below rely on).
-/
import Mathlib

set_option maxRecDepth 100000

namespace YTSent

/-- Strings, modelled as lists of characters. -/
abbrev Str := List Char

/-! ## Character classes (the classes of the Python regexes in
`preprocessing_service.py`, plus Python's `str.strip` whitespace) -/

/-- Python `\s` / `str.strip()` whitespace, ASCII part. -/
def isPySpace (c : Char) : Bool :=
  c = ' ' || c = '\t' || c = '\n' || c = '\r' || c = '\x0b' || c = '\x0c'

/-- The class `[A-Za-z]` from `_remove_non_alphabet` (code points of
`A`-`Z` and `a`-`z`). -/
def isAsciiAlpha (c : Char) : Bool :=
  (65 ≤ c.toNat && c.toNat ≤ 90) || (97 ≤ c.toNat && c.toNat ≤ 122)

/-- The class `[A-Za-z0-9]` from `_normalize_repeated_chars`. -/
def isAlnumCh (c : Char) : Bool :=
  isAsciiAlpha c || (48 ≤ c.toNat && c.toNat ≤ 57)

/-- Python regex `\w`, ASCII part: `[A-Za-z0-9_]`. -/
def isWordChar (c : Char) : Bool :=
  isAlnumCh c || c = '_'

/-- The punctuation class `[!?.,]` from `_normalize_repeated_chars`. -/
def isPunct4 (c : Char) : Bool :=
  c = '!' || c = '?' || c = '.' || c = ','

/-- The emoji/pictographic code-point ranges of `_remove_emoji`. -/
def isEmojiCh (c : Char) : Bool :=
  (0x1F600 ≤ c.toNat && c.toNat ≤ 0x1F64F) ||
  (0x1F300 ≤ c.toNat && c.toNat ≤ 0x1F5FF) ||
  (0x1F680 ≤ c.toNat && c.toNat ≤ 0x1F6FF) ||
  (0x1F1E0 ≤ c.toNat && c.toNat ≤ 0x1F1FF)

/-- Length bound used by the termination arguments of the regex scanners. -/
def lenDropWhile_le (p : Char → Bool) (l : List Char) :
    (l.dropWhile p).length ≤ l.length :=
  (List.dropWhile_sublist p).length_le

/-! ## Python string primitives -/

/-- Drop trailing characters satisfying `isPySpace`. -/
def dropTrail (l : Str) : Str :=
  (l.reverse.dropWhile isPySpace).reverse

/-- Python `str.strip()`: drop leading and trailing whitespace. -/
def pyStrip (l : Str) : Str :=
  dropTrail (l.dropWhile isPySpace)

/-- Python `str.lower()` (ASCII part), applied character-wise. -/
def pyLower (l : Str) : Str :=
  l.map Char.toLower

/-! ## `PreprocessingService` stages (`preprocessing_service.py`) -/

/-- `PreprocessingService._remove_url`: `re.sub(r"http\S+|www\S+", "", ·)`,
scanning left to right; a match (the literal prefix followed greedily by
one or more non-space characters) is deleted. -/
def removeUrl : Str → Str
  | 'h' :: 't' :: 't' :: 'p' :: c :: rest =>
    if isPySpace c then 'h' :: removeUrl ('t' :: 't' :: 'p' :: c :: rest)
    else removeUrl (rest.dropWhile (fun x => !isPySpace x))
  | 'w' :: 'w' :: 'w' :: c :: rest =>
    if isPySpace c then 'w' :: removeUrl ('w' :: 'w' :: c :: rest)
    else removeUrl (rest.dropWhile (fun x => !isPySpace x))
  | c :: cs => c :: removeUrl cs
  | [] => []
termination_by l => l.length
decreasing_by
  all_goals
    first
      | (simp only [List.length_cons]; omega)
      | (refine Nat.lt_of_le_of_lt (lenDropWhile_le _ _) ?_
         simp only [List.length_cons]; omega)

/-- `PreprocessingService._remove_mention_hashtag`, one pattern:
`re.sub(tag + r"\w+", "", ·)`, deleting the tag character and the greedy
run of word characters after it. -/
def removeTag (tag : Char) : Str → Str
  | c :: d :: rest =>
    if c = tag ∧ isWordChar d then removeTag tag (rest.dropWhile isWordChar)
    else c :: removeTag tag (d :: rest)
  | [c] => [c]
  | [] => []
termination_by l => l.length
decreasing_by
  all_goals
    first
      | (simp only [List.length_cons]; omega)
      | (refine Nat.lt_of_le_of_lt (lenDropWhile_le _ _) ?_
         simp only [List.length_cons]; omega)

/-- `PreprocessingService._remove_emoji`: `re.sub` with an emoji character
class deletes exactly the characters of the class. -/
def removeEmoji (l : Str) : Str :=
  l.filter (fun c => !isEmojiCh c)

/-- `re.sub(r"([A-Za-z0-9])\1{2,}", r"\1\1", ·)`: a run of three or more
copies of one alphanumeric character collapses to exactly two. -/
def collapseAlnum : Str → Str
  | a :: b :: c :: rest =>
    if a = b ∧ b = c ∧ isAlnumCh a then
      a :: a :: collapseAlnum (rest.dropWhile (fun x => x = a))
    else
      a :: collapseAlnum (b :: c :: rest)
  | l => l
termination_by l => l.length
decreasing_by
  all_goals
    first
      | (simp only [List.length_cons]; omega)
      | (refine Nat.lt_of_le_of_lt (lenDropWhile_le _ _) ?_
         simp only [List.length_cons]; omega)

/-- `re.sub(r"([!?.,])\1+", r"\1", ·)`: a run of two or more copies of one
punctuation character collapses to one. -/
def collapsePunct : Str → Str
  | a :: b :: rest =>
    if a = b ∧ isPunct4 a then
      a :: collapsePunct (rest.dropWhile (fun x => x = a))
    else
      a :: collapsePunct (b :: rest)
  | l => l
termination_by l => l.length
decreasing_by
  all_goals
    first
      | (simp only [List.length_cons]; omega)
      | (refine Nat.lt_of_le_of_lt (lenDropWhile_le _ _) ?_
         simp only [List.length_cons]; omega)

/-- `PreprocessingService._remove_non_alphabet`:
`re.sub(r"[^a-zA-Z\s]", " ", ·)` replaces each character outside
`[A-Za-z\s]` by a space. -/
def removeNonAlphabet (l : Str) : Str :=
  l.map (fun c => if isAsciiAlpha c || isPySpace c then c else ' ')

/-- The head of a `dropWhile` result fails the predicate (used by the
termination argument and head-shape lemmas below). -/
def dropWhileHead_false (p : Char → Bool) :
    (l : List Char) → (a : Char) → (t : List Char) →
    l.dropWhile p = a :: t → p a = false
  | [], _, _, h => by cases h
  | x :: xs, a, t, h => by
    rw [List.dropWhile_cons] at h
    by_cases hx : p x = true
    · rw [if_pos hx] at h
      exact dropWhileHead_false p xs a t h
    · rw [if_neg hx] at h
      cases h
      simpa using hx

/-- Python `str.split()`: split on whitespace runs, discarding empties. -/
def splitWs (l : Str) : List Str :=
  if h : l.dropWhile isPySpace = [] then []
  else
    (l.dropWhile isPySpace).takeWhile (fun x => !isPySpace x) ::
      splitWs ((l.dropWhile isPySpace).dropWhile (fun x => !isPySpace x))
termination_by l.length
decreasing_by
  have h1 := lenDropWhile_le isPySpace l
  rcases hne : l.dropWhile isPySpace with _ | ⟨a, t⟩
  · exact absurd hne h
  · have ha := dropWhileHead_false isPySpace l a t hne
    rw [List.dropWhile_cons, if_pos (by simp [ha])]
    have h2 := lenDropWhile_le (fun x => !isPySpace x) t
    rw [hne] at h1
    simp only [List.length_cons] at h1
    omega

/-- Python `" ".join(tokens)`. -/
def joinSpace : List Str → Str
  | [] => []
  | [t] => t
  | t :: ts => t ++ ' ' :: joinSpace ts

/-- `self.slang_dict.get(word, word)`: look a token up in the slang
dictionary (an association list; first binding wins), defaulting to the
token itself. -/
def slangLookup (d : List (Str × Str)) (w : Str) : Str :=
  match d.find? (fun p => p.1 = w) with
  | some p => p.2
  | none => w

/-- `PreprocessingService._normalize_slang`: split into whitespace-separated
tokens, replace each token found in the slang dictionary, re-join with
single spaces. -/
def normalizeSlang (d : List (Str × Str)) (l : Str) : Str :=
  joinSpace ((splitWs l).map (slangLookup d))

/-- `re.sub(r"\s+", " ", ·)`: collapse each whitespace run to one space. -/
def collapseWs : Str → Str
  | [] => []
  | c :: cs =>
    if isPySpace c then ' ' :: collapseWs (cs.dropWhile isPySpace)
    else c :: collapseWs cs
termination_by l => l.length
decreasing_by
  all_goals
    first
      | (simp only [List.length_cons]; omega)
      | (refine Nat.lt_of_le_of_lt (lenDropWhile_le _ _) ?_
         simp only [List.length_cons]; omega)

/-- `PreprocessingService.clean_text`, in the order the source applies the
stages: lowercase; strip URLs; strip `@`-mentions then `#`-hashtags; strip
emoji; collapse repeated characters (letters/digits, then punctuation);
replace non-alphabet characters by spaces; slang normalization; collapse
whitespace and strip. -/
def cleanText (d : List (Str × Str)) (s : Str) : Str :=
  pyStrip (collapseWs (normalizeSlang d (removeNonAlphabet (collapsePunct
    (collapseAlnum (removeEmoji (removeTag '#' (removeTag '@'
      (removeUrl (pyLower s))))))))))

/-- The normalization pipeline in the order the spec lists its stages
(step 6, slang replacement, before step 7, dropping characters outside
`[a-z\s]`). Written from the spec's words, to be compared with `cleanText`. -/
def cleanTextSpecOrder (d : List (Str × Str)) (s : Str) : Str :=
  pyStrip (collapseWs (removeNonAlphabet (normalizeSlang d (collapsePunct
    (collapseAlnum (removeEmoji (removeTag '#' (removeTag '@'
      (removeUrl (pyLower s))))))))))

/-- The spec's stage list amended at steps 6/7 only: non-alphabet removal
applied before slang replacement, everything else in the listed order. -/
def cleanTextAmendedOrder (d : List (Str × Str)) (s : Str) : Str :=
  pyStrip (collapseWs (normalizeSlang d (removeNonAlphabet (collapsePunct
    (collapseAlnum (removeEmoji (removeTag '#' (removeTag '@'
      (removeUrl (pyLower s))))))))))

/-! ## Whitespace normal form (for the output shape of `clean_text`) -/

/-- No two adjacent whitespace characters. -/
def noDoubleWs : Str → Bool
  | [] => true
  | [_] => true
  | a :: b :: rest => (!(isPySpace a && isPySpace b)) && noDoubleWs (b :: rest)

/-- Whitespace normal form: no leading whitespace, no trailing whitespace,
no run of two or more whitespace characters. -/
def wsNormalB (l : Str) : Bool :=
  (match l with | [] => true | c :: _ => !isPySpace c) &&
  (match l.getLast? with | none => true | some c => !isPySpace c) &&
  noDoubleWs l

/-! ## `SentimentService` (`sentiment_service.py`) -/

/-- Python `str.lower()` on a label string (ASCII part). -/
def lowerStr (s : String) : String :=
  String.mk (s.toList.map Char.toLower)

/-- The synonym match applied to a looked-up `id2label` value `m` inside
`_normalize_label` (lines 95-106), with fallback label `l`. -/
def mappedLabel (swap : Bool) (l m : String) : String :=
  if m = "" then l
  else if m = "positive" ∨ m = "positif" then (if swap then "negative" else "positive")
  else if m = "negative" ∨ m = "negatif" then (if swap then "positive" else "negative")
  else if m = "neutral" ∨ m = "netral" then "neutral"
  else m

/-- The `LABEL_<n>` block of `_normalize_label` (lines 84-109): parse the
index after the last `_` (`int(...)` modelled by `String.toNat?`; a parse
failure is the caught `ValueError` and falls through to the lowercased
raw label `l`), look it up in the model's `id2label` table when present,
and re-run the looked-up value through the synonym match
(`mappedLabel`; an entry mapping to the empty string is falsy under
Python's `if mapped:` and also falls through to `l`). -/
def labelIdxResolve (swap : Bool) (id2 : Option (Nat → Option String))
    (l : String) : String :=
  match ((l.splitOn "_").getLastD "").toNat? with
  | none => l
  | some idx =>
    match id2 with
    | none => l
    | some table =>
      match table idx with
      | none => l
      | some m0 => mappedLabel swap l (lowerStr m0)

/-- `SentimentService._normalize_label`.  `swap` is
`settings.SENTIMENT_SWAP_POS_NEG`; `id2` models the classifier model's
optional `config.id2label` table (the dict and list shapes of the source
are both index lookups).  Direct synonym match first (case-insensitive,
with the Indonesian synonyms), then the `LABEL_<n>` block, else the
lowercased raw label is returned verbatim. -/
def normalizeLabel (swap : Bool) (id2 : Option (Nat → Option String))
    (label : String) : String :=
  if lowerStr label = "positive" ∨ lowerStr label = "positif" then
    (if swap then "negative" else "positive")
  else if lowerStr label = "negative" ∨ lowerStr label = "negatif" then
    (if swap then "positive" else "negative")
  else if lowerStr label = "neutral" ∨ lowerStr label = "netral" then
    "neutral"
  else if (lowerStr label).startsWith "label_" then
    labelIdxResolve swap id2 (lowerStr label)
  else lowerStr label

/-- The polarity swap as the spec describes it: exchange
`positive ⟷ negative`, leave everything else (in particular `neutral`)
unchanged. -/
def swapSent (s : String) : String :=
  if s = "positive" then "negative"
  else if s = "negative" then "positive"
  else s

/-- One raw classifier output `{label, score}` (the score type is opaque:
the code only converts it with `float(...)` and passes it through). -/
structure ClfOut (σ : Type) where
  label : String
  score : σ
deriving DecidableEq

/-- `SentimentService.analyze` reduced to the sentiment it produces.
`clf` models `self.classifier(text)[0]["label"]`; `none` models the
classifier call raising (the caller catches per-item exceptions).
Blank or whitespace-only input short-circuits to `neutral` without
invoking the model. -/
def analyzeSent (swap : Bool) (id2 : Option (Nat → Option String))
    (clf : Str → Option String) (t : Str) : Option String :=
  if t = [] ∨ pyStrip t = [] then some "neutral"
  else (clf t).map (normalizeLabel swap id2)

/-- The replacement applied to each batch element before the batch call:
`text if text and text.strip() else " "`. -/
def safeText (t : String) : String :=
  if t = "" ∨ pyStrip t.toList = [] then " " else t

/-- `SentimentService.analyze_batch`.  The underlying batch call is the
classifier boundary of the spec's §6: one `{label, score}` result per input
string, in input order — modelled by an element-wise oracle `g`. -/
def analyzeBatch {σ : Type} (swap : Bool) (id2 : Option (Nat → Option String))
    (g : String → ClfOut σ) (texts : List String) : List (String × σ) :=
  if texts.isEmpty then []
  else (texts.map safeText).map
    (fun t => (normalizeLabel swap id2 (g t).label, (g t).score))

/-! ## Comment and persistence data model
(`db/models/comment.py`, `db/repositories/comment_repository.py`) -/

/-- One raw fetched comment dict, as built by `YouTubeCommentService`
(`comment_id`, `author`, `text`, `like_count`, `parent_id`,
`is_top_level`; the `published_at` timestamp is carried by the code but
examined by no claim and is omitted). -/
structure RawC where
  cid : String
  author : String
  text : Str
  likeCount : Int
  parentId : Option String
  topLevel : Bool
deriving DecidableEq

/-- One `Comment` row as built by `AnalysisService` and persisted by
`CommentRepository.bulk_create` (`created_at` omitted, as above). -/
structure CommentRec where
  cid : String
  videoId : String
  analysisId : String
  author : String
  text : Str
  sentiment : String
  parentId : Option String
  topLevel : Bool
  likeCount : Int
deriving DecidableEq

/-- The comments table: rows keyed by the primary key `id` (the external
comment ID), in insertion order. -/
abbrev Store := List (String × CommentRec)

/-- The primary keys present in the table. -/
def storeKeys (db : Store) : List String :=
  db.map (fun p => p.1)

/-- Read a row by primary key. -/
def lookupStore (db : Store) (k : String) : Option CommentRec :=
  (db.find? (fun p => p.1 = k)).map (fun p => p.2)

/-- Rows created for a given analysis ID. -/
def storeCountAnalysis (db : Store) (aid : String) : Nat :=
  db.countP (fun p => p.2.analysisId = aid)

/-- Insert semantics of
`insert(Comment).values(rows).on_conflict_do_nothing(index_elements=["id"])`
for one row: a row whose `id` already exists is skipped, never
overwritten. -/
def insertIgnore (db : Store) (r : CommentRec) : Store :=
  if r.cid ∈ storeKeys db then db else db ++ [(r.cid, r)]

/-- `CommentRepository.bulk_create`: conflict-free bulk insert of a batch
(an empty batch returns immediately; the fold makes that case the
identity as well). -/
def bulkCreate (db : Store) (rows : List CommentRec) : Store :=
  rows.foldl insertIgnore db

/-- The three canonical sentiment values — the `sentiment_enum` column
type of the comments table (`004_create_comments_table.py`). -/
def canonicalSent (s : String) : Bool :=
  s = "positive" || s = "negative" || s = "neutral"

/-- A row acceptable to the comments table: its `sentiment` must be a
value of `sentiment_enum` (the column is `nullable=False`). -/
def validRow (r : CommentRec) : Bool :=
  canonicalSent r.sentiment

/-- The pipeline's persistence step: the database type-checks every value
of the statement against `sentiment_enum` before conflict resolution, so
a batch containing a non-canonical sentiment fails as a whole; otherwise
the conflict-ignoring bulk insert runs. -/
def persistComments (db : Store) (rows : List CommentRec) :
    Except String Store :=
  if rows.all validRow then .ok (bulkCreate db rows)
  else .error "invalid input value for enum sentiment_enum"

/-! ## `AnalysisService.analyze_youtube_video`, stages 4-7
(`analysis_service.py` lines 101-196) -/

/-- Stage 5 (preprocess + sentiment): for each raw comment, clean the
text, analyze it, and build the `Comment` record; a per-item failure is
caught, logged and the item dropped (`filterMap`). -/
def classifyStage (d : List (Str × Str)) (swap : Bool)
    (id2 : Option (Nat → Option String)) (clf : Str → Option String)
    (videoId analysisId : String) (raws : List RawC) : List CommentRec :=
  raws.filterMap (fun r =>
    (analyzeSent swap id2 clf (cleanText d r.text)).map (fun sent =>
      { cid := r.cid, videoId := videoId, analysisId := analysisId,
        author := r.author, text := r.text, sentiment := sent,
        parentId := r.parentId, topLevel := r.topLevel,
        likeCount := r.likeCount }))

/-- The summary counts committed onto the `Analysis` row. -/
structure Summary where
  total : Nat
  positive : Nat
  negative : Nat
  neutral : Nat
deriving DecidableEq

/-- Stages 4-7 of `AnalysisService.analyze_youtube_video`: reject an empty
comment set, classify (dropping failed items), bulk-persist, and compute
the aggregate counts from the in-memory records of this run.  Returns the
final table and the analysis counts, or the error message of the failed
stage. -/
def runClassifyPersist (d : List (Str × Str)) (swap : Bool)
    (id2 : Option (Nat → Option String)) (clf : Str → Option String)
    (videoId analysisId : String) (db : Store) (raws : List RawC) :
    Except String (Store × Summary) :=
  if raws.isEmpty then
    .error "Video ini tidak memiliki komentar yang dapat dianalisis"
  else
    match persistComments db (classifyStage d swap id2 clf videoId analysisId raws) with
    | .error e => .error e
    | .ok db1 =>
      .ok (db1,
        { total := (classifyStage d swap id2 clf videoId analysisId raws).length,
          positive := (classifyStage d swap id2 clf videoId analysisId raws).countP
            (fun c => c.sentiment = "positive"),
          negative := (classifyStage d swap id2 clf videoId analysisId raws).countP
            (fun c => c.sentiment = "negative"),
          neutral := (classifyStage d swap id2 clf videoId analysisId raws).countP
            (fun c => c.sentiment = "neutral") })

/-! ## `YouTubeCommentService` (`youtube_comment_service.py`) -/

/-- The pagination/size ceilings of the service. -/
def MAX_PAGES : Nat := 100

/-- Absolute ceiling on collected items per loop. -/
def MAX_COMMENTS : Nat := 10000

/-- One provider item, before validation (`hasSnippet` models a missing or
empty `snippet` object; `cid` a missing `id`). -/
structure PageItem where
  hasSnippet : Bool
  text : Str
  cid : Option String
  author : String
  likeCount : Int
deriving DecidableEq

/-- One provider page: items plus whether a continuation token was
returned. -/
structure Page where
  items : List PageItem
  nextToken : Bool
deriving DecidableEq

/-- An upstream provider error (`HttpError` or other exception); the
classification of its status/message into user-facing messages is not
examined by any claim and is left opaque. -/
structure PErr where
  status : Nat
  msg : String
deriving DecidableEq

/-- The per-item structural validation of both fetch loops: a present
snippet, non-empty text after `strip()`, and a present comment ID; items
failing it are skipped, never fatal. -/
def validItem (it : PageItem) : Bool :=
  it.hasSnippet && !(pyStrip it.text).isEmpty && it.cid.isSome

/-- Build the comment dict from a validated item (`sanitize_comment` uses
the external `bleach` library and is modelled as an opaque function
`san`). -/
def buildComment (san : Str → Str) (parent : Option String)
    (it : PageItem) : RawC :=
  { cid := it.cid.getD "", author := it.author, text := san (pyStrip it.text),
    likeCount := it.likeCount, parentId := parent, topLevel := parent.isNone }

/-- The shared shape of the two fetch loops (`_get_top_level_comments`
and `_get_replies`): `while page_count < MAX_PAGES and len(acc) <
MAX_COMMENTS`, fetch a page (`fuel` is the remaining page budget, the
call count doubles as page index in place of the opaque token), break on
an empty page, append the page's valid items, break once `MAX_COMMENTS`
is reached or no continuation token remains.  On a provider error the
top-level loop re-raises (`raiseErr = true`) while the reply loop breaks
and keeps its partial result.  Returns the outcome and the number of
provider calls made. -/
def pagedLoop (raiseErr : Bool) (build : PageItem → RawC)
    (f : Nat → Except PErr Page) :
    Nat → List RawC → Nat → Except PErr (List RawC) × Nat
  | 0, acc, calls => (.ok acc, calls)
  | fuel + 1, acc, calls =>
    if acc.length < MAX_COMMENTS then
      match f calls with
      | .error e => if raiseErr then (.error e, calls + 1) else (.ok acc, calls + 1)
      | .ok page =>
        if page.items.isEmpty then (.ok acc, calls + 1)
        else
          if MAX_COMMENTS ≤ (acc ++ (page.items.filter validItem).map build).length then
            (.ok (acc ++ (page.items.filter validItem).map build), calls + 1)
          else if page.nextToken then
            pagedLoop raiseErr build f fuel
              (acc ++ (page.items.filter validItem).map build) (calls + 1)
          else (.ok (acc ++ (page.items.filter validItem).map build), calls + 1)
    else (.ok acc, calls)

/-- `YouTubeCommentService._get_top_level_comments` (result and number of
provider calls). -/
def fetchTopLevel (san : Str → Str) (f : Nat → Except PErr Page) :
    Except PErr (List RawC) × Nat :=
  pagedLoop true (buildComment san none) f MAX_PAGES [] 0

/-- `YouTubeCommentService._get_replies` for one parent comment: any
provider error breaks the loop and the partial result is returned, never
an exception. -/
def getReplies (san : Str → Str) (g : String → Nat → Except PErr Page)
    (parent : String) : List RawC :=
  match pagedLoop false (buildComment san (some parent)) (g parent)
      MAX_PAGES [] 0 with
  | (.ok l, _) => l
  | (.error _, _) => []

/-- The reply-collection loop of `fetch_all_comments` (lines 234-246):
for each top-level comment, append it and then its fetched replies. -/
def collectWithReplies (san : Str → Str)
    (g : String → Nat → Except PErr Page) (tops : List RawC) : List RawC :=
  tops.foldl (fun acc c => acc ++ c :: getReplies san g c.cid) []

/-- The largest page the provider yields within the page budget (for the
size bound of the fetch loops). -/
def pageBound (f : Nat → Except PErr Page) : Nat :=
  ((List.range MAX_PAGES).map
    (fun i => match f i with | .ok p => p.items.length | .error _ => 0)).foldr max 0

/-! ## Concrete inputs used by witnesses and counterexamples -/

/-- A raw top-level comment with the given ID and text. -/
def sampleRaw (cid : String) (text : Str) : RawC :=
  { cid := cid, author := "author", text := text, likeCount := 0,
    parentId := none, topLevel := true }

/-- A comment row with the given ID, analysis ID and sentiment. -/
def sampleRec (cid aid sent : String) : CommentRec :=
  { cid := cid, videoId := "v", analysisId := aid, author := "author",
    text := ['h', 'i'], sentiment := sent, parentId := none,
    topLevel := true, likeCount := 0 }

/-- A store already holding comment `c1` from an earlier analysis `a0`. -/
def c1db : Store := [("c1", sampleRec "c1" "a0" "positive")]

/-- A classifier that labels everything `positive`. -/
def c1clf : Str → Option String := fun _ => some "positive"

/-- One fetched comment with ID `c1`. -/
def c1raws : List RawC := [sampleRaw "c1" ['h', 'i']]

/-- A store holding a row `c0` written by analysis `a0`. -/
def c2db : Store := [("c0", sampleRec "c0" "a0" "positive")]

/-- A batch that includes the already-present ID `c0` (with different
content) and a new ID `c9`. -/
def c2rows : List CommentRec :=
  [sampleRec "c0" "a1" "negative", sampleRec "c9" "a1" "neutral"]

/-- A classifier whose call raises on every input (total classification
failure). -/
def c3clf : Str → Option String := fun _ => none

/-- A non-empty fetched comment set. -/
def c3raws : List RawC := [sampleRaw "c1" ['h', 'i']]

/-- A provider item that passes validation. -/
def c5item : PageItem :=
  { hasSnippet := true, text := ['o', 'k'], cid := some "id",
    author := "author", likeCount := 0 }

/-- A page holding `MAX_COMMENTS + 1` valid items. -/
def c5bigPage : Page :=
  { items := List.replicate (MAX_COMMENTS + 1) c5item, nextToken := true }

/-- A provider whose first page holds `MAX_COMMENTS + 1` valid items. -/
def c5f : Nat → Except PErr Page :=
  fun i =>
    if i = 0 then .ok c5bigPage
    else .ok { items := [], nextToken := false }

/-- A provider returning a single empty page (for the page-budget
witness). -/
def c5fEmpty : Nat → Except PErr Page :=
  fun _ => .ok { items := [], nextToken := false }

/-- Sanitization modelled as the identity for the concrete scenarios. -/
def sanId : Str → Str := fun t => t

/-- Five fetched top-level comments `t1` … `t5`. -/
def c6tops : List RawC :=
  [sampleRaw "t1" ['a'], sampleRaw "t2" ['b'], sampleRaw "t3" ['c'],
   sampleRaw "t4" ['d'], sampleRaw "t5" ['e']]

/-- A reply provider that fails (HTTP 403) for parent `t1` and yields no
replies elsewhere. -/
def c6g : String → Nat → Except PErr Page :=
  fun parent _ =>
    if parent = "t1" then .error { status := 403, msg := "forbidden" }
    else .ok { items := [], nextToken := false }

/-- The slang dictionary `{gpp ↦ tidak}` (one entry, as
`slang.txt` lines `slang=formal` produce). -/
def c4dict : List (Str × Str) :=
  [(['g', 'p', 'p'], ['t', 'i', 'd', 'a', 'k'])]

/-! # Lemmas -/

/-! ## Label reconciliation -/

theorem swapSent_of_ne (l : String) (h1 : l ≠ "positive")
    (h2 : l ≠ "negative") : swapSent l = l := by
  unfold swapSent
  rw [if_neg h1, if_neg h2]

theorem mappedLabel_swap (l m : String) (h1 : l ≠ "positive")
    (h2 : l ≠ "negative") :
    mappedLabel true l m = swapSent (mappedLabel false l m) := by
  unfold mappedLabel
  by_cases g0 : m = ""
  · simp only [if_pos g0]
    exact (swapSent_of_ne l h1 h2).symm
  · simp only [if_neg g0]
    by_cases g1 : m = "positive" ∨ m = "positif"
    · simp only [if_pos g1]; decide
    · simp only [if_neg g1]
      by_cases g2 : m = "negative" ∨ m = "negatif"
      · simp only [if_pos g2]; decide
      · simp only [if_neg g2]
        by_cases g3 : m = "neutral" ∨ m = "netral"
        · simp only [if_pos g3]; decide
        · simp only [if_neg g3]
          exact (swapSent_of_ne m (fun h => g1 (Or.inl h))
            (fun h => g2 (Or.inl h))).symm

theorem labelIdxResolve_swap (id2 : Option (Nat → Option String))
    (l : String) (h1 : l ≠ "positive") (h2 : l ≠ "negative") :
    labelIdxResolve true id2 l = swapSent (labelIdxResolve false id2 l) := by
  unfold labelIdxResolve
  split
  · exact (swapSent_of_ne l h1 h2).symm
  · split
    · exact (swapSent_of_ne l h1 h2).symm
    · split
      · exact (swapSent_of_ne l h1 h2).symm
      · exact mappedLabel_swap l _ h1 h2

/-! ## Store / `bulk_create` -/

theorem storeKeys_mem_insertIgnore (db : Store) (r : CommentRec)
    (k : String) (h : k ∈ storeKeys db) : k ∈ storeKeys (insertIgnore db r) := by
  unfold insertIgnore
  split
  · exact h
  · unfold storeKeys at h ⊢
    rw [List.map_append]
    exact List.mem_append_left _ h

theorem storeKeys_mem_insertIgnore_self (db : Store) (r : CommentRec) :
    r.cid ∈ storeKeys (insertIgnore db r) := by
  unfold insertIgnore
  split
  · next h => exact h
  · unfold storeKeys
    rw [List.map_append]
    exact List.mem_append_right _ (by simp)

theorem insertIgnore_of_mem (db : Store) (r : CommentRec)
    (h : r.cid ∈ storeKeys db) : insertIgnore db r = db := by
  unfold insertIgnore
  exact if_pos h

theorem storeKeys_mem_bulkCreate (rows : List CommentRec) (db : Store)
    (k : String) (h : k ∈ storeKeys db) : k ∈ storeKeys (bulkCreate db rows) := by
  induction rows generalizing db with
  | nil => exact h
  | cons r rs ih =>
    exact ih (insertIgnore db r) (storeKeys_mem_insertIgnore db r k h)

theorem mem_storeKeys_bulkCreate (rows : List CommentRec) (db : Store)
    (r : CommentRec) (hr : r ∈ rows) : r.cid ∈ storeKeys (bulkCreate db rows) := by
  induction rows generalizing db with
  | nil => cases hr
  | cons x xs ih =>
    rcases List.mem_cons.mp hr with hr | hr
    · subst hr
      exact storeKeys_mem_bulkCreate xs (insertIgnore db r) r.cid
        (storeKeys_mem_insertIgnore_self db r)
    · exact ih (insertIgnore db x) hr

theorem bulkCreate_of_all_mem (rows : List CommentRec) (db : Store)
    (h : ∀ r ∈ rows, r.cid ∈ storeKeys db) : bulkCreate db rows = db := by
  induction rows with
  | nil => rfl
  | cons r rs ih =>
    unfold bulkCreate
    rw [List.foldl_cons, insertIgnore_of_mem db r (h r (by simp))]
    exact ih (fun x hx => h x (by simp [hx]))

theorem lookupStore_insertIgnore (db : Store) (r : CommentRec) (k : String)
    (h : (lookupStore db k).isSome) :
    lookupStore (insertIgnore db r) k = lookupStore db k := by
  unfold insertIgnore
  split
  · rfl
  · unfold lookupStore at h ⊢
    rw [List.find?_append]
    cases hf : List.find? (fun p => p.1 = k) db with
    | none => rw [hf] at h; simp at h
    | some p => simp [Option.or]

theorem lookupStore_bulkCreate (rows : List CommentRec) (db : Store)
    (k : String) (h : (lookupStore db k).isSome) :
    lookupStore (bulkCreate db rows) k = lookupStore db k := by
  induction rows generalizing db with
  | nil => rfl
  | cons r rs ih =>
    have h1 := lookupStore_insertIgnore db r k h
    unfold bulkCreate
    rw [List.foldl_cons]
    rw [show List.foldl insertIgnore (insertIgnore db r) rs =
      bulkCreate (insertIgnore db r) rs from rfl]
    rw [ih (insertIgnore db r) (by rw [h1]; exact h)]
    exact h1

/-! ## Fetch loops -/

theorem pagedLoop_error_break (build : PageItem → RawC)
    (f : Nat → Except PErr Page) (fuel : Nat) (acc : List RawC)
    (calls : Nat) (e : PErr) (hfuel : 0 < fuel)
    (hacc : acc.length < MAX_COMMENTS) (hf : f calls = .error e) :
    pagedLoop false build f fuel acc calls = (.ok acc, calls + 1) := by
  cases fuel with
  | zero => exact absurd hfuel (by omega)
  | succ n =>
    unfold pagedLoop
    rw [if_pos hacc, hf]
    rfl

theorem getReplies_error_first_page (san : Str → Str)
    (g : String → Nat → Except PErr Page) (parent : String) (e : PErr)
    (h : g parent 0 = .error e) : getReplies san g parent = [] := by
  unfold getReplies
  rw [pagedLoop_error_break _ _ MAX_PAGES [] 0 e (by decide) (by decide) h]

theorem foldl_collect_append (san : Str → Str)
    (g : String → Nat → Except PErr Page) (tops : List RawC)
    (acc : List RawC) :
    tops.foldl (fun a c => a ++ c :: getReplies san g c.cid) acc =
      acc ++ tops.flatMap (fun c => c :: getReplies san g c.cid) := by
  induction tops generalizing acc with
  | nil => simp
  | cons t ts ih =>
    rw [List.foldl_cons, ih, List.flatMap_cons]
    simp

theorem le_foldr_max (x : Nat) (l : List Nat) (h : x ∈ l) :
    x ≤ l.foldr max 0 := by
  induction l with
  | nil => cases h
  | cons a t ih =>
    rcases List.mem_cons.mp h with h1 | h1
    · subst h1
      exact Nat.le_max_left x (t.foldr max 0)
    · exact Nat.le_trans (ih h1) (Nat.le_max_right a (t.foldr max 0))

theorem pageBound_ge (f : Nat → Except PErr Page) (i : Nat)
    (hi : i < MAX_PAGES) (p : Page) (hf : f i = .ok p) :
    p.items.length ≤ pageBound f := by
  unfold pageBound
  apply le_foldr_max
  refine List.mem_map.mpr ⟨i, List.mem_range.mpr hi, ?_⟩
  rw [hf]

theorem pagedLoop_calls_le (raiseErr : Bool) (build : PageItem → RawC)
    (f : Nat → Except PErr Page) (fuel : Nat) :
    ∀ acc calls, (pagedLoop raiseErr build f fuel acc calls).2 ≤ calls + fuel := by
  induction fuel with
  | zero =>
    intro acc calls
    simp [pagedLoop]
  | succ n ih =>
    intro acc calls
    unfold pagedLoop
    by_cases hacc : acc.length < MAX_COMMENTS
    · rw [if_pos hacc]
      cases hf : f calls with
      | error e =>
        dsimp only
        cases raiseErr <;> simp <;> try omega
      | ok page =>
        dsimp only
        by_cases he : page.items.isEmpty
        · rw [if_pos he]; simp; try omega
        · rw [if_neg he]
          by_cases hmax : MAX_COMMENTS ≤
              (acc ++ (page.items.filter validItem).map build).length
          · rw [if_pos hmax]; simp; try omega
          · rw [if_neg hmax]
            by_cases ht : page.nextToken
            · rw [if_pos ht]
              have := ih (acc ++ (page.items.filter validItem).map build) (calls + 1)
              omega
            · rw [if_neg ht]; simp; try omega
    · rw [if_neg hacc]
      simp

theorem pagedLoop_ok_length (raiseErr : Bool) (build : PageItem → RawC)
    (f : Nat → Except PErr Page) (fuel : Nat) :
    ∀ acc calls l, calls + fuel ≤ MAX_PAGES →
    (pagedLoop raiseErr build f fuel acc calls).1 = .ok l →
    l.length ≤ max acc.length (MAX_COMMENTS - 1 + pageBound f) := by
  induction fuel with
  | zero =>
    intro acc calls l _ h
    have : acc = l := by simpa [pagedLoop] using h
    subst this
    exact Nat.le_max_left _ _
  | succ n ih =>
    intro acc calls l hc h
    unfold pagedLoop at h
    by_cases hacc : acc.length < MAX_COMMENTS
    · rw [if_pos hacc] at h
      cases hf : f calls with
      | error e =>
        rw [hf] at h
        dsimp only at h
        cases raiseErr
        · simp at h
          subst h
          exact Nat.le_max_left _ _
        · simp at h
      | ok page =>
        rw [hf] at h
        dsimp only at h
        by_cases he : page.items.isEmpty
        · rw [if_pos he] at h
          simp at h
          subst h
          exact Nat.le_max_left _ _
        · rw [if_neg he] at h
          have hpage : page.items.length ≤ pageBound f :=
            pageBound_ge f calls (by omega) page hf
          have hacc2 : (acc ++ (page.items.filter validItem).map build).length ≤
              MAX_COMMENTS - 1 + pageBound f := by
            rw [List.length_append, List.length_map]
            have := List.length_filter_le validItem page.items
            omega
          by_cases hmax : MAX_COMMENTS ≤
              (acc ++ (page.items.filter validItem).map build).length
          · rw [if_pos hmax] at h
            simp at h
            subst h
            exact Nat.le_trans hacc2 (Nat.le_max_right _ _)
          · rw [if_neg hmax] at h
            by_cases ht : page.nextToken
            · rw [if_pos ht] at h
              have := ih (acc ++ (page.items.filter validItem).map build)
                (calls + 1) l (by omega) h
              have hmx : max (acc ++ (page.items.filter validItem).map build).length
                  (MAX_COMMENTS - 1 + pageBound f) = MAX_COMMENTS - 1 + pageBound f :=
                Nat.max_eq_right hacc2
              rw [hmx] at this
              exact Nat.le_trans this (Nat.le_max_right _ _)
            · rw [if_neg ht] at h
              simp at h
              subst h
              exact Nat.le_trans hacc2 (Nat.le_max_right _ _)
    · rw [if_neg hacc] at h
      simp at h
      subst h
      exact Nat.le_max_left _ _

theorem pagedLoop_first_page_hits_max (raiseErr : Bool)
    (build : PageItem → RawC) (f : Nat → Except PErr Page) (fuel : Nat)
    (acc : List RawC) (calls : Nat) (page : Page) (hfuel : 0 < fuel)
    (hacc : acc.length < MAX_COMMENTS) (hf : f calls = .ok page)
    (hne : page.items.isEmpty = false)
    (hbig : MAX_COMMENTS ≤ (acc ++ (page.items.filter validItem).map build).length) :
    pagedLoop raiseErr build f fuel acc calls =
      (.ok (acc ++ (page.items.filter validItem).map build), calls + 1) := by
  cases fuel with
  | zero => exact absurd hfuel (by omega)
  | succ n =>
    unfold pagedLoop
    rw [if_pos hacc, hf]
    dsimp only
    rw [if_neg (by simp [hne]), if_pos hbig]

/-! ## Counting -/

theorem countP_sentiment_partition (l : List CommentRec)
    (h : ∀ c ∈ l, canonicalSent c.sentiment) :
    l.length = l.countP (fun c => c.sentiment = "positive")
      + l.countP (fun c => c.sentiment = "negative")
      + l.countP (fun c => c.sentiment = "neutral") := by
  induction l with
  | nil => rfl
  | cons c cs ih =>
    have hc := h c (by simp)
    have ihh := ih (fun x hx => h x (by simp [hx]))
    unfold canonicalSent at hc
    have hc' : (c.sentiment = "positive" ∨ c.sentiment = "negative") ∨
        c.sentiment = "neutral" := by simpa using hc
    rcases hc' with (h1 | h1) | h1 <;>
      simp [List.countP_cons, h1, List.length_cons, ihh] <;> omega

/-! ## Concrete pipeline evaluations -/

theorem cleanText_nil_hi : cleanText [] ['h', 'i'] = ['h', 'i'] := by
  unfold cleanText
  have s1 : pyLower ['h', 'i'] = ['h', 'i'] := by decide
  rw [s1]
  have s2 : removeUrl ['h', 'i'] = ['h', 'i'] := by simp [removeUrl]
  rw [s2]
  have s3 : removeTag '@' ['h', 'i'] = ['h', 'i'] := by
    simp [removeTag, isWordChar]
  rw [s3]
  have s4 : removeTag '#' ['h', 'i'] = ['h', 'i'] := by
    simp [removeTag, isWordChar]
  rw [s4]
  have s5 : removeEmoji ['h', 'i'] = ['h', 'i'] := by decide
  rw [s5]
  have s6 : collapseAlnum ['h', 'i'] = ['h', 'i'] := by simp [collapseAlnum]
  rw [s6]
  have s7 : collapsePunct ['h', 'i'] = ['h', 'i'] := by simp [collapsePunct]
  rw [s7]
  have s8 : removeNonAlphabet ['h', 'i'] = ['h', 'i'] := by decide
  rw [s8]
  have s9 : normalizeSlang [] ['h', 'i'] = ['h', 'i'] := by
    simp [normalizeSlang, splitWs, joinSpace, slangLookup, isPySpace]
  rw [s9]
  have s10 : collapseWs ['h', 'i'] = ['h', 'i'] := by simp [collapseWs, isPySpace]
  rw [s10]
  decide

theorem c1_classify_eval :
    classifyStage [] false none c1clf "v" "a1" c1raws =
      [sampleRec "c1" "a1" "positive"] := by
  have hnl : normalizeLabel false none "positive" = "positive" := by decide
  simp [classifyStage, c1raws, sampleRaw, analyzeSent, cleanText_nil_hi,
    c1clf, hnl, sampleRec, pyStrip, dropTrail, isPySpace]

/-! ## Whitespace normal form (lemmas for C10 and C8) -/

theorem noDoubleWs_tail (a : Char) (l : Str) (h : noDoubleWs (a :: l) = true) :
    noDoubleWs l = true := by
  cases l with
  | nil => rfl
  | cons b t =>
    simp only [noDoubleWs, Bool.and_eq_true] at h
    exact h.2

theorem noDoubleWs_append_right (s t : Str)
    (h : noDoubleWs (s ++ t) = true) : noDoubleWs t = true := by
  induction s with
  | nil => exact h
  | cons a s' ih => exact ih (noDoubleWs_tail a _ h)

theorem noDoubleWs_append_left (s t : Str)
    (h : noDoubleWs (s ++ t) = true) : noDoubleWs s = true := by
  induction s with
  | nil => rfl
  | cons a s' ih =>
    cases s' with
    | nil => rfl
    | cons b s'' =>
      simp only [List.cons_append, noDoubleWs, Bool.and_eq_true] at h
      have hrec := ih (by simpa [noDoubleWs, Bool.and_eq_true] using h.2)
      simp only [noDoubleWs, Bool.and_eq_true]
      refine ⟨h.1, ?_⟩
      exact hrec

theorem collapseWs_ws_head (l : Str) (c : Char) (t : Str)
    (h : collapseWs l = c :: t) (hc : isPySpace c = true) :
    ∃ d ds, l = d :: ds ∧ isPySpace d = true := by
  cases l with
  | nil => simp [collapseWs] at h
  | cons d ds =>
    by_cases hd : isPySpace d
    · exact ⟨d, ds, rfl, hd⟩
    · unfold collapseWs at h
      rw [if_neg hd] at h
      rw [List.cons.injEq] at h
      obtain ⟨h1, _⟩ := h
      subst h1
      exact absurd hc hd

theorem collapseWs_noDouble (l : Str) : noDoubleWs (collapseWs l) = true := by
  induction l using collapseWs.induct with
  | case1 => simp [collapseWs, noDoubleWs]
  | case2 c cs hws ih =>
    unfold collapseWs
    rw [if_pos hws]
    cases hcw : collapseWs (cs.dropWhile isPySpace) with
    | nil => simp [noDoubleWs]
    | cons d t =>
      simp only [noDoubleWs, Bool.and_eq_true]
      constructor
      · by_cases hd : isPySpace d
        · obtain ⟨e, es, heq, hwse⟩ := collapseWs_ws_head _ d t hcw hd
          have he := dropWhileHead_false isPySpace cs e es heq
          rw [he] at hwse
          cases hwse
        · simp [hd]
      · rw [hcw] at ih
        exact ih
  | case3 c cs hws ih =>
    unfold collapseWs
    rw [if_neg hws]
    cases hcw : collapseWs cs with
    | nil => simp [noDoubleWs]
    | cons d t =>
      simp only [noDoubleWs, Bool.and_eq_true]
      constructor
      · simp only [Bool.not_eq_true] at hws
        simp [hws]
      · rw [hcw] at ih
        exact ih

theorem dropTrail_prefix (l : Str) :
    l = dropTrail l ++ (l.reverse.takeWhile isPySpace).reverse := by
  unfold dropTrail
  rw [← List.reverse_append, List.takeWhile_append_dropWhile, List.reverse_reverse]

theorem dropTrail_prefix_ex (l : Str) : ∃ t2, l = dropTrail l ++ t2 :=
  ⟨_, dropTrail_prefix l⟩

theorem noDoubleWs_pyStrip (l : Str) (h : noDoubleWs l = true) :
    noDoubleWs (pyStrip l) = true := by
  unfold pyStrip
  have h1 : noDoubleWs (l.dropWhile isPySpace) = true := by
    have := List.takeWhile_append_dropWhile (p := isPySpace) (l := l)
    exact noDoubleWs_append_right _ _ (by rw [this]; exact h)
  obtain ⟨t2, hpre⟩ := dropTrail_prefix_ex (l.dropWhile isPySpace)
  exact noDoubleWs_append_left _ _ (hpre ▸ h1)

theorem pyStrip_head_not_ws (l : Str) (c : Char) (t : Str)
    (h : pyStrip l = c :: t) : isPySpace c = false := by
  unfold pyStrip at h
  obtain ⟨t2, hpre⟩ := dropTrail_prefix_ex (l.dropWhile isPySpace)
  rw [h] at hpre
  exact dropWhileHead_false isPySpace l c (t ++ t2)
    (by rw [hpre, List.cons_append])

theorem pyStrip_reverse_eq (l : Str) :
    (pyStrip l).reverse = ((l.dropWhile isPySpace).reverse).dropWhile isPySpace := by
  unfold pyStrip dropTrail
  rw [List.reverse_reverse]

theorem pyStrip_getLast_not_ws (l : Str) (c : Char)
    (h : (pyStrip l).getLast? = some c) : isPySpace c = false := by
  rw [List.getLast?_eq_head?_reverse, pyStrip_reverse_eq] at h
  cases hr : ((l.dropWhile isPySpace).reverse).dropWhile isPySpace with
  | nil => rw [hr] at h; cases h
  | cons d ds =>
    rw [hr, List.head?_cons, Option.some.injEq] at h
    subst h
    exact dropWhileHead_false isPySpace _ d ds hr

theorem wsNormal_strip_collapse (x : Str) :
    wsNormalB (pyStrip (collapseWs x)) = true := by
  have hnd2 : noDoubleWs (pyStrip (collapseWs x)) = true :=
    noDoubleWs_pyStrip _ (collapseWs_noDouble x)
  unfold wsNormalB
  rw [Bool.and_eq_true, Bool.and_eq_true]
  refine ⟨⟨?_, ?_⟩, hnd2⟩
  · cases hps : pyStrip (collapseWs x) with
    | nil => rfl
    | cons c t => simp [pyStrip_head_not_ws _ c t hps]
  · cases hgl : (pyStrip (collapseWs x)).getLast? with
    | none => rfl
    | some c => simp [pyStrip_getLast_not_ws _ c hgl]

theorem dropWhile_eq_self_of_head (p : Char → Bool) (w : Str)
    (h : ∀ c t, w = c :: t → p c = false) : w.dropWhile p = w := by
  cases w with
  | nil => rfl
  | cons c t =>
    rw [List.dropWhile_cons, if_neg (by simp [h c t rfl])]

theorem pyStrip_id_of_wsNormal (w : Str) (h : wsNormalB w = true) :
    pyStrip w = w := by
  unfold wsNormalB at h
  rw [Bool.and_eq_true, Bool.and_eq_true] at h
  obtain ⟨⟨h1, h2⟩, _⟩ := h
  have hdw : w.dropWhile isPySpace = w := by
    apply dropWhile_eq_self_of_head
    intro c t hct
    subst hct
    simpa using h1
  have hdt : dropTrail w = w := by
    unfold dropTrail
    rw [dropWhile_eq_self_of_head, List.reverse_reverse]
    intro c t hct
    have : w.getLast? = some c := by
      rw [← List.head?_reverse, hct, List.head?_cons]
    rw [this] at h2
    simpa using h2
  unfold pyStrip
  rw [hdw, hdt]

theorem c10helper_cleanText_shape (d : List (Str × Str)) (s : Str) :
    cleanText d s = pyStrip (collapseWs (normalizeSlang d (removeNonAlphabet
      (collapsePunct (collapseAlnum (removeEmoji (removeTag '#' (removeTag '@'
        (removeUrl (pyLower s)))))))))) := rfl

/-! ## Unfolding equations for the URL scanner (its character-literal
patterns do not reduce definitionally) -/

theorem removeUrl_eq_http (d : Char) (rest : Str) :
    removeUrl ('h' :: 't' :: 't' :: 'p' :: d :: rest) =
      if isPySpace d = true then 'h' :: removeUrl ('t' :: 't' :: 'p' :: d :: rest)
      else removeUrl (rest.dropWhile (fun x => !isPySpace x)) := by
  conv_lhs => unfold removeUrl
  split
  · rename_i heq
    simp at heq
    obtain ⟨h1, h2⟩ := heq
    subst h1; subst h2
    rfl
  · rename_i heq
    simp at heq
  · rename_i hno1 hno2 heq
    simp at heq
    obtain ⟨h1, h2⟩ := heq
    exact (hno1 d rest h1.symm h2.symm).elim
  · rename_i heq
    simp at heq

theorem removeUrl_eq_www (d : Char) (rest : Str) :
    removeUrl ('w' :: 'w' :: 'w' :: d :: rest) =
      if isPySpace d = true then 'w' :: removeUrl ('w' :: 'w' :: d :: rest)
      else removeUrl (rest.dropWhile (fun x => !isPySpace x)) := by
  conv_lhs => unfold removeUrl
  split
  · rename_i heq
    simp at heq
  · rename_i heq
    simp at heq
    obtain ⟨h1, h2⟩ := heq
    subst h1; subst h2
    rfl
  · rename_i hno1 hno2 heq
    simp at heq
    obtain ⟨h1, h2⟩ := heq
    exact (hno2 d rest h1.symm h2.symm).elim
  · rename_i heq
    simp at heq

theorem removeUrl_eq_cons (x : Char) (xs : Str)
    (hno1 : ∀ (d : Char) (rest : List Char),
      x = 'h' → xs = 't' :: 't' :: 'p' :: d :: rest → False)
    (hno2 : ∀ (d : Char) (rest : List Char),
      x = 'w' → xs = 'w' :: 'w' :: d :: rest → False) :
    removeUrl (x :: xs) = x :: removeUrl xs := by
  conv_lhs => unfold removeUrl
  split
  · rename_i heq
    simp at heq
    obtain ⟨h1, h2⟩ := heq
    exact (hno1 _ _ h1 h2).elim
  · rename_i heq
    simp at heq
    obtain ⟨h1, h2⟩ := heq
    exact (hno2 _ _ h1 h2).elim
  · rename_i heq
    simp at heq
    obtain ⟨h1, h2⟩ := heq
    subst h1; subst h2
    rfl
  · rename_i heq
    simp at heq

theorem removeUrl_nil : removeUrl [] = [] := by
  unfold removeUrl
  rfl

/-! ## Character-membership lemmas: no normalization stage invents
characters (other than spaces) -/

theorem mem_removeUrl (l : Str) (c : Char) (h : c ∈ removeUrl l) : c ∈ l := by
  induction l using removeUrl.induct with
  | case1 d rest hws ih =>
    rw [removeUrl_eq_http, if_pos hws] at h
    rcases List.mem_cons.mp h with rfl | h2
    · exact List.mem_cons_self _ _
    · have h3 := ih h2
      simp only [List.mem_cons] at h3 ⊢
      tauto
  | case2 d rest hws ih =>
    rw [removeUrl_eq_http, if_neg hws] at h
    have h3 := List.dropWhile_subset _ (ih h)
    simp only [List.mem_cons] at h3 ⊢
    tauto
  | case3 d rest hws ih =>
    rw [removeUrl_eq_www, if_pos hws] at h
    rcases List.mem_cons.mp h with rfl | h2
    · exact List.mem_cons_self _ _
    · have h3 := ih h2
      simp only [List.mem_cons] at h3 ⊢
      tauto
  | case4 d rest hws ih =>
    rw [removeUrl_eq_www, if_neg hws] at h
    have h3 := List.dropWhile_subset _ (ih h)
    simp only [List.mem_cons] at h3 ⊢
    tauto
  | case5 x xs hno1 hno2 ih =>
    rw [removeUrl_eq_cons x xs hno1 hno2] at h
    rcases List.mem_cons.mp h with rfl | h2
    · exact List.mem_cons_self _ _
    · exact List.mem_cons_of_mem _ (ih h2)
  | case6 =>
    rw [removeUrl_nil] at h
    cases h

theorem mem_removeTag (tag : Char) (l : Str) (c : Char)
    (h : c ∈ removeTag tag l) : c ∈ l := by
  induction l using removeTag.induct tag with
  | case1 x d rest hcond ih =>
    unfold removeTag at h
    rw [if_pos hcond] at h
    have h3 := List.dropWhile_subset _ (ih h)
    simp only [List.mem_cons] at h3 ⊢
    tauto
  | case2 x d rest hcond ih =>
    unfold removeTag at h
    rw [if_neg hcond] at h
    rcases List.mem_cons.mp h with rfl | h2
    · exact List.mem_cons_self _ _
    · exact List.mem_cons_of_mem _ (ih h2)
  | case3 x =>
    unfold removeTag at h
    exact h
  | case4 =>
    unfold removeTag at h
    cases h

theorem collapseAlnum_eq_default (l : Str)
    (hno : ∀ (a b c : Char) (rest : Str), l = a :: b :: c :: rest → False) :
    collapseAlnum l = l := by
  conv_lhs => unfold collapseAlnum
  split
  · rename_i a b x rest
    exact (hno a b x rest rfl).elim
  · rfl

theorem mem_collapseAlnum (l : Str) (c : Char) (h : c ∈ collapseAlnum l) :
    c ∈ l := by
  induction l using collapseAlnum.induct with
  | case1 a b x rest hcond ih =>
    unfold collapseAlnum at h
    rw [if_pos hcond] at h
    rcases List.mem_cons.mp h with rfl | h2
    · exact List.mem_cons_self _ _
    · rcases List.mem_cons.mp h2 with rfl | h3
      · exact List.mem_cons_self _ _
      · have h4 := List.dropWhile_subset _ (ih h3)
        simp only [List.mem_cons] at h4 ⊢
        tauto
  | case2 a b x rest hcond ih =>
    unfold collapseAlnum at h
    rw [if_neg hcond] at h
    rcases List.mem_cons.mp h with rfl | h2
    · exact List.mem_cons_self _ _
    · exact List.mem_cons_of_mem _ (ih h2)
  | case3 l hno =>
    rw [collapseAlnum_eq_default l (by intro a b x rest heq; exact hno a b x rest heq)] at h
    exact h

theorem collapsePunct_eq_default (l : Str)
    (hno : ∀ (a b : Char) (rest : Str), l = a :: b :: rest → False) :
    collapsePunct l = l := by
  conv_lhs => unfold collapsePunct
  split
  · rename_i a b rest
    exact (hno a b rest rfl).elim
  · rfl

theorem mem_collapsePunct (l : Str) (c : Char) (h : c ∈ collapsePunct l) :
    c ∈ l := by
  induction l using collapsePunct.induct with
  | case1 a b rest hcond ih =>
    unfold collapsePunct at h
    rw [if_pos hcond] at h
    rcases List.mem_cons.mp h with rfl | h2
    · exact List.mem_cons_self _ _
    · have h4 := List.dropWhile_subset _ (ih h2)
      simp only [List.mem_cons] at h4 ⊢
      tauto
  | case2 a b rest hcond ih =>
    unfold collapsePunct at h
    rw [if_neg hcond] at h
    rcases List.mem_cons.mp h with rfl | h2
    · exact List.mem_cons_self _ _
    · exact List.mem_cons_of_mem _ (ih h2)
  | case3 l hno =>
    rw [collapsePunct_eq_default l (by intro a b rest heq; exact hno a b rest heq)] at h
    exact h

theorem mem_removeNonAlphabet (l : Str) (c : Char)
    (h : c ∈ removeNonAlphabet l) :
    c = ' ' ∨ (c ∈ l ∧ (isAsciiAlpha c || isPySpace c) = true) := by
  unfold removeNonAlphabet at h
  obtain ⟨a, ha, hfa⟩ := List.mem_map.mp h
  by_cases hc : (isAsciiAlpha a || isPySpace a) = true
  · rw [if_pos hc] at hfa
    subst hfa
    exact Or.inr ⟨ha, hc⟩
  · rw [if_neg hc] at hfa
    exact Or.inl hfa.symm

theorem mem_joinSpace (ts : List Str) (c : Char) (h : c ∈ joinSpace ts) :
    c = ' ' ∨ ∃ t ∈ ts, c ∈ t := by
  induction ts with
  | nil => cases h
  | cons t ts ih =>
    cases ts with
    | nil =>
      right
      exact ⟨t, List.mem_cons_self _ _, h⟩
    | cons t2 ts2 =>
      unfold joinSpace at h
      rcases List.mem_append.mp h with h1 | h2
      · exact Or.inr ⟨t, List.mem_cons_self _ _, h1⟩
      · rcases List.mem_cons.mp h2 with rfl | h3
        · exact Or.inl rfl
        · rcases ih h3 with h4 | ⟨t', ht', hct'⟩
          · exact Or.inl h4
          · exact Or.inr ⟨t', List.mem_cons_of_mem _ ht', hct'⟩

theorem mem_splitWs_token (l : Str) (t : Str) (ht : t ∈ splitWs l)
    (c : Char) (hc : c ∈ t) : c ∈ l ∧ isPySpace c = false := by
  induction l using splitWs.induct with
  | case1 l hnil =>
    unfold splitWs at ht
    rw [dif_pos hnil] at ht
    cases ht
  | case2 l hnil ih =>
    unfold splitWs at ht
    rw [dif_neg hnil] at ht
    rcases List.mem_cons.mp ht with rfl | h2
    · have hmem := List.takeWhile_subset (l := l.dropWhile isPySpace)
        (fun x => !isPySpace x) hc
      have hp := List.mem_takeWhile_imp hc
      exact ⟨List.dropWhile_subset _ hmem, by simpa using hp⟩
    · obtain ⟨hmem, hws⟩ := ih h2
      exact ⟨List.dropWhile_subset _ (List.dropWhile_subset _ hmem), hws⟩

theorem mem_collapseWs (l : Str) (c : Char) (h : c ∈ collapseWs l) :
    c = ' ' ∨ c ∈ l := by
  induction l using collapseWs.induct with
  | case1 =>
    rw [show collapseWs [] = [] from by unfold collapseWs; rfl] at h
    cases h
  | case2 x cs hws ih =>
    unfold collapseWs at h
    rw [if_pos hws] at h
    rcases List.mem_cons.mp h with rfl | h2
    · exact Or.inl rfl
    · rcases ih h2 with h3 | h3
      · exact Or.inl h3
      · exact Or.inr (List.mem_cons_of_mem _ (List.dropWhile_subset _ h3))
  | case3 x cs hws ih =>
    unfold collapseWs at h
    rw [if_neg hws] at h
    rcases List.mem_cons.mp h with rfl | h2
    · exact Or.inr (List.mem_cons_self _ _)
    · rcases ih h2 with h3 | h3
      · exact Or.inl h3
      · exact Or.inr (List.mem_cons_of_mem _ h3)

theorem mem_pyStrip (l : Str) (c : Char) (h : c ∈ pyStrip l) : c ∈ l := by
  unfold pyStrip dropTrail at h
  have h1 := List.dropWhile_subset (l := (l.dropWhile isPySpace).reverse)
    isPySpace (List.mem_reverse.mp h)
  exact List.dropWhile_subset _ (List.mem_reverse.mp h1)

/-! ## Character classes of cleaned output (empty dictionary) -/

theorem toLower_not_upper (c : Char) :
    ¬(65 ≤ (Char.toLower c).toNat ∧ (Char.toLower c).toNat ≤ 90) := by
  unfold Char.toLower
  by_cases h : 65 ≤ c.toNat ∧ c.toNat ≤ 90
  · rw [if_pos h]
    have hofn : (Char.ofNat (c.toNat + 32)).toNat = c.toNat + 32 := by
      unfold Char.ofNat
      rw [dif_pos (Or.inl (by omega) : Nat.isValidChar (c.toNat + 32))]
      rfl
    omega
  · rw [if_neg h]
    exact h

theorem mem_pyLower_not_upper (s : Str) (c : Char) (h : c ∈ pyLower s) :
    ¬(65 ≤ c.toNat ∧ c.toNat ≤ 90) := by
  unfold pyLower at h
  obtain ⟨a, _, hfa⟩ := List.mem_map.mp h
  subst hfa
  exact toLower_not_upper a

theorem slangLookup_nil (w : Str) : slangLookup [] w = w := rfl

theorem normalizeSlang_nil (l : Str) :
    normalizeSlang [] l = joinSpace (splitWs l) := by
  unfold normalizeSlang
  rw [show slangLookup ([] : List (Str × Str)) = id from funext slangLookup_nil,
    List.map_id]

/-- Every character of `cleanText [] s` is a lowercase ASCII letter or a
space. -/
theorem cleanText_nil_chars (s : Str) (c : Char) (h : c ∈ cleanText [] s) :
    (97 ≤ c.toNat ∧ c.toNat ≤ 122) ∨ c = ' ' := by
  unfold cleanText at h
  rw [normalizeSlang_nil] at h
  have h1 := mem_pyStrip _ _ h
  rcases mem_collapseWs _ _ h1 with rfl | h2
  · exact Or.inr rfl
  rcases mem_joinSpace _ _ h2 with rfl | ⟨t, ht, hct⟩
  · exact Or.inr rfl
  obtain ⟨hcY, hnws⟩ := mem_splitWs_token _ t ht c hct
  rcases mem_removeNonAlphabet _ _ hcY with rfl | ⟨hcZ, halpha⟩
  · exact Or.inr rfl
  have hnotup : ¬(65 ≤ c.toNat ∧ c.toNat ≤ 90) :=
    mem_pyLower_not_upper s c
      (mem_removeUrl _ _ (mem_removeTag '@' _ _ (mem_removeTag '#' _ _
        (List.mem_of_mem_filter (mem_collapseAlnum _ _ (mem_collapsePunct _ _ hcZ))))))
  rw [Bool.or_eq_true] at halpha
  rcases halpha with halpha | hws
  · unfold isAsciiAlpha at halpha
    simp only [Bool.or_eq_true, Bool.and_eq_true, decide_eq_true_eq] at halpha
    rcases halpha with ⟨ha1, ha2⟩ | ⟨ha1, ha2⟩
    · exact absurd ⟨ha1, ha2⟩ hnotup
    · exact Or.inl ⟨ha1, ha2⟩
  · rw [hws] at hnws
    cases hnws

/-! ## Stage-identity lemmas on lowercase-letters-and-spaces text -/

theorem charOK_not_ws (c : Char) (h1 : 97 ≤ c.toNat) (h2 : c.toNat ≤ 122)
    (hws : isPySpace c = true) : False := by
  unfold isPySpace at hws
  simp only [Bool.or_eq_true, decide_eq_true_eq] at hws
  rcases hws with ((((rfl | rfl) | rfl) | rfl) | rfl) | rfl <;>
    revert h1 h2 <;> decide

theorem pyLower_id_of_chars (w : Str)
    (h : ∀ c ∈ w, (97 ≤ c.toNat ∧ c.toNat ≤ 122) ∨ c = ' ') :
    pyLower w = w := by
  unfold pyLower
  conv_rhs => rw [← List.map_id w]
  apply List.map_congr_left
  intro c hc
  rcases h c hc with ⟨h1, h2⟩ | rfl
  · show Char.toLower c = c
    unfold Char.toLower
    rw [if_neg (by omega)]
  · decide

theorem removeTag_id_of_not_mem (tag : Char) (w : Str)
    (h : ∀ c ∈ w, c ≠ tag) : removeTag tag w = w := by
  induction w using removeTag.induct tag with
  | case1 x d rest hcond ih =>
    exact absurd hcond.1 (h x (List.mem_cons_self _ _))
  | case2 x d rest hcond ih =>
    unfold removeTag
    rw [if_neg hcond, ih (fun c hc => h c (List.mem_cons_of_mem _ hc))]
  | case3 x => simp [removeTag]
  | case4 => simp [removeTag]

theorem removeEmoji_id_of_chars (w : Str)
    (h : ∀ c ∈ w, (97 ≤ c.toNat ∧ c.toNat ≤ 122) ∨ c = ' ') :
    removeEmoji w = w := by
  unfold removeEmoji
  rw [List.filter_eq_self.mpr]
  intro c hc
  rcases h c hc with ⟨h1, h2⟩ | rfl
  · unfold isEmojiCh
    simp only [Bool.not_eq_true', Bool.or_eq_false_iff, Bool.and_eq_false_iff]
    refine ⟨⟨⟨?_, ?_⟩, ?_⟩, ?_⟩ <;> simp only [decide_eq_false_iff_not] <;> omega
  · decide

theorem collapsePunct_id_of_chars (w : Str)
    (h : ∀ c ∈ w, (97 ≤ c.toNat ∧ c.toNat ≤ 122) ∨ c = ' ') :
    collapsePunct w = w := by
  induction w using collapsePunct.induct with
  | case1 a b rest hcond ih =>
    rcases h a (List.mem_cons_self _ _) with ⟨h1, h2⟩ | rfl
    · have hp := hcond.2
      unfold isPunct4 at hp
      simp only [Bool.or_eq_true, decide_eq_true_eq] at hp
      rcases hp with ((rfl | rfl) | rfl) | rfl <;> exact absurd h1 (by decide)
    · exact absurd hcond.2 (by decide)
  | case2 a b rest hcond ih =>
    unfold collapsePunct
    rw [if_neg hcond, ih (fun c hc => h c (List.mem_cons_of_mem _ hc))]
  | case3 l hno => exact collapsePunct_eq_default l hno

theorem removeNonAlphabet_id_of_chars (w : Str)
    (h : ∀ c ∈ w, (97 ≤ c.toNat ∧ c.toNat ≤ 122) ∨ c = ' ') :
    removeNonAlphabet w = w := by
  unfold removeNonAlphabet
  conv_rhs => rw [← List.map_id w]
  apply List.map_congr_left
  intro c hc
  show (if isAsciiAlpha c || isPySpace c then c else ' ') = c
  rcases h c hc with ⟨h1, h2⟩ | rfl
  · rw [if_pos]
    unfold isAsciiAlpha
    simp only [Bool.or_eq_true, Bool.and_eq_true, decide_eq_true_eq]
    left
    right
    exact ⟨h1, h2⟩
  · rw [if_pos (by decide)]

theorem collapseWs_id_of_normal (w : Str)
    (hOK : ∀ c ∈ w, (97 ≤ c.toNat ∧ c.toNat ≤ 122) ∨ c = ' ')
    (hnd : noDoubleWs w = true) : collapseWs w = w := by
  induction w using collapseWs.induct with
  | case1 => simp [collapseWs]
  | case2 c cs hws ih =>
    have hc : c = ' ' := by
      rcases hOK c (List.mem_cons_self _ _) with ⟨h1, h2⟩ | rfl
      · exact absurd hws (by intro hws'; exact charOK_not_ws c h1 h2 hws')
      · rfl
    subst hc
    cases cs with
    | nil => simp [collapseWs, isPySpace]
    | cons d t =>
      have hd : isPySpace d = false := by
        simp only [noDoubleWs, Bool.and_eq_true] at hnd
        have h1 := hnd.1
        simp only [Bool.not_eq_true', Bool.and_eq_false_iff] at h1
        rcases h1 with h1 | h1
        · exact absurd h1 (by decide)
        · exact h1
      have hdw : (d :: t).dropWhile isPySpace = d :: t := by
        rw [List.dropWhile_cons, if_neg (by simp [hd])]
      rw [hdw] at ih
      unfold collapseWs
      rw [if_pos hws, hdw]
      rw [ih (fun c hc => hOK c (List.mem_cons_of_mem _ hc))
        (noDoubleWs_tail _ _ hnd)]
  | case3 c cs hws ih =>
    unfold collapseWs
    rw [if_neg hws]
    rw [ih (fun x hx => hOK x (List.mem_cons_of_mem _ hx))
      (noDoubleWs_tail _ _ hnd)]

theorem splitWs_congr (l1 l2 : Str)
    (h : l1.dropWhile isPySpace = l2.dropWhile isPySpace) :
    splitWs l1 = splitWs l2 := by
  unfold splitWs
  rw [h]

theorem splitWs_nil : splitWs [] = [] := by
  unfold splitWs
  rw [dif_pos (show List.dropWhile isPySpace [] = [] from rfl)]

/-- On whitespace-normal lowercase text, splitting into tokens and
re-joining with single spaces is the identity (`n` bounds the length for
the induction). -/
theorem joinSplit_id_aux (n : Nat) :
    ∀ (w : Str), w.length ≤ n →
    (∀ c ∈ w, (97 ≤ c.toNat ∧ c.toNat ≤ 122) ∨ c = ' ') →
    noDoubleWs w = true →
    (∀ c t, w = c :: t → isPySpace c = false) →
    (∀ c, w.getLast? = some c → isPySpace c = false) →
    joinSpace (splitWs w) = w := by
  induction n with
  | zero =>
    intro w hlen _ _ _ _
    have hw : w = [] := List.eq_nil_of_length_eq_zero (by omega)
    subst hw
    rw [splitWs_nil]
    rfl
  | succ n ih =>
    intro w hlen hOK hnd hhead hlast
    cases w with
    | nil =>
      rw [splitWs_nil]
      rfl
    | cons c cs =>
      have hcws : isPySpace c = false := hhead c cs rfl
      have hdw : (c :: cs).dropWhile isPySpace = c :: cs := by
        rw [List.dropWhile_cons, if_neg (by simp [hcws])]
      have htok : (c :: cs).takeWhile (fun x => !isPySpace x) =
          c :: cs.takeWhile (fun x => !isPySpace x) := by
        rw [List.takeWhile_cons, if_pos (by simp [hcws])]
      have hsplitw : splitWs (c :: cs) =
          (c :: cs).takeWhile (fun x => !isPySpace x) ::
            splitWs ((c :: cs).dropWhile (fun x => !isPySpace x)) := by
        rw [splitWs]
        rw [dif_neg (by rw [hdw]; simp), hdw]
      have happ := List.takeWhile_append_dropWhile
        (p := fun x => !isPySpace x) (l := c :: cs)
      rw [hsplitw]
      cases hrest : (c :: cs).dropWhile (fun x => !isPySpace x) with
      | nil =>
        rw [hrest] at happ
        rw [List.append_nil] at happ
        rw [splitWs_nil]
        exact happ
      | cons d ds =>
        have hdws : isPySpace d = true := by
          have hh := dropWhileHead_false (fun x => !isPySpace x) (c :: cs) d ds hrest
          simpa using hh
        have hdmem : d ∈ c :: cs := by
          have hd1 : d ∈ (c :: cs).dropWhile (fun x => !isPySpace x) := by
            rw [hrest]
            exact List.mem_cons_self _ _
          exact List.dropWhile_subset _ hd1
        have hd' : d = ' ' := by
          rcases hOK d hdmem with ⟨h1, h2⟩ | rfl
          · exact absurd hdws (by intro hws'; exact charOK_not_ws d h1 h2 hws')
          · rfl
        subst hd'
        rw [hrest] at happ
        cases ds with
        | nil =>
          have hlastw : (c :: cs).getLast? = some ' ' := by
            rw [← happ]
            exact List.getLast?_concat _
          exact absurd (hlast ' ' hlastw) (by decide)
        | cons e es =>
          have hens : isPySpace e = false := by
            have hsub : noDoubleWs (' ' :: e :: es) = true :=
              noDoubleWs_append_right _ _ (happ ▸ hnd)
            simp only [noDoubleWs, Bool.and_eq_true] at hsub
            have h1 := hsub.1
            simp only [Bool.not_eq_true', Bool.and_eq_false_iff] at h1
            rcases h1 with h1 | h1
            · exact absurd h1 (by decide)
            · exact h1
          have htoklen : 1 ≤ ((c :: cs).takeWhile (fun x => !isPySpace x)).length := by
            rw [htok]
            simp
          have hlen2 : (e :: es).length ≤ n := by
            have hlh := congrArg List.length happ
            simp only [List.length_append, List.length_cons] at hlh
            simp only [List.length_cons] at hlen ⊢
            omega
          have hOK2 : ∀ x ∈ e :: es, (97 ≤ x.toNat ∧ x.toNat ≤ 122) ∨ x = ' ' := by
            intro x hx
            apply hOK
            rw [← happ]
            exact List.mem_append_right _ (List.mem_cons_of_mem _ hx)
          have hnd2 : noDoubleWs (e :: es) = true :=
            noDoubleWs_tail _ _ (noDoubleWs_append_right _ _ (happ ▸ hnd))
          have hhead2 : ∀ x t, e :: es = x :: t → isPySpace x = false := by
            intro x t hx
            rw [List.cons.injEq] at hx
            rw [← hx.1]
            exact hens
          have hlast2 : ∀ x, (e :: es).getLast? = some x → isPySpace x = false := by
            intro x hx
            apply hlast
            rw [← happ, List.getLast?_append, List.getLast?_cons_cons, hx]
            rfl
          have hcongr : splitWs (' ' :: e :: es) = splitWs (e :: es) := by
            apply splitWs_congr
            rw [List.dropWhile_cons, if_pos (by decide)]
          have hrec := ih (e :: es) hlen2 hOK2 hnd2 hhead2 hlast2
          have hdw2 : (e :: es).dropWhile isPySpace = e :: es := by
            rw [List.dropWhile_cons, if_neg (by simp [hens])]
          have hsplitw2 : splitWs (e :: es) =
              (e :: es).takeWhile (fun x => !isPySpace x) ::
                splitWs ((e :: es).dropWhile (fun x => !isPySpace x)) := by
            rw [splitWs]
            rw [dif_neg (by rw [hdw2]; simp), hdw2]
          rw [hcongr, hsplitw2]
          rw [show joinSpace ((c :: cs).takeWhile (fun x => !isPySpace x) ::
              (e :: es).takeWhile (fun x => !isPySpace x) ::
              splitWs ((e :: es).dropWhile (fun x => !isPySpace x))) =
            (c :: cs).takeWhile (fun x => !isPySpace x) ++ ' ' ::
              joinSpace ((e :: es).takeWhile (fun x => !isPySpace x) ::
              splitWs ((e :: es).dropWhile (fun x => !isPySpace x))) from rfl]
          rw [← hsplitw2, hrec]
          exact happ

/-! # Claims -/

/-- C7.  For every raw label and every matching path (direct synonym
match or `LABEL_<n>` index resolution), enabling the polarity-swap flag
turns the reconciled `positive` into `negative` and vice versa, and
leaves `neutral` (and every passthrough value) unchanged: the flag-on
result is exactly `swapSent` of the flag-off result, where `swapSent`
exchanges `positive ⟷ negative` and fixes everything else. -/
theorem c7_polarity_swap (id2 : Option (Nat → Option String))
    (label : String) :
    normalizeLabel true id2 label = swapSent (normalizeLabel false id2 label) := by
  unfold normalizeLabel
  by_cases h1 : lowerStr label = "positive" ∨ lowerStr label = "positif"
  · simp only [if_pos h1]; decide
  · simp only [if_neg h1]
    by_cases h2 : lowerStr label = "negative" ∨ lowerStr label = "negatif"
    · simp only [if_pos h2]; decide
    · simp only [if_neg h2]
      by_cases h3 : lowerStr label = "neutral" ∨ lowerStr label = "netral"
      · simp only [if_pos h3]; decide
      · simp only [if_neg h3]
        by_cases h4 : (lowerStr label).startsWith "label_"
        · simp only [if_pos h4]
          exact labelIdxResolve_swap id2 (lowerStr label)
            (fun h => h1 (Or.inl h)) (fun h => h2 (Or.inl h))
        · simp only [if_neg h4]
          exact (swapSent_of_ne (lowerStr label)
            (fun h => h1 (Or.inl h)) (fun h => h2 (Or.inl h))).symm

/-- C2.  Persisting the same batch twice through `bulk_create` yields the
same stored row set (hence the same row count) as persisting it once, and
an insert whose comment ID already exists is a no-op: every row readable
before the insert reads back unchanged after it (first-writer-wins, no
overwrite, no error — the operation is total). -/
theorem c2_bulk_create_idempotent (db : Store) (rows : List CommentRec) :
    bulkCreate (bulkCreate db rows) rows = bulkCreate db rows ∧
    ∀ k, (lookupStore db k).isSome →
      lookupStore (bulkCreate db rows) k = lookupStore db k := by
  constructor
  · exact bulkCreate_of_all_mem rows (bulkCreate db rows)
      (fun r hr => mem_storeKeys_bulkCreate rows db r hr)
  · exact fun k hk => lookupStore_bulkCreate rows db k hk

/-- Witness for C2 at a concrete store and batch: the pre-existing row
`c0` (written by analysis `a0`) survives a batch that re-submits ID `c0`
with different content. -/
theorem c2_bulk_create_idempotent_witness :
    (lookupStore c2db "c0").isSome ∧
    lookupStore (bulkCreate c2db c2rows) "c0" = lookupStore c2db "c0" :=
  ⟨by decide, (c2_bulk_create_idempotent c2db c2rows).2 "c0" (by decide)⟩

/-- C5 (amended).  Both fetch loops terminate against every provider,
including an unbounded one: each loop makes at most `MAX_PAGES` provider
calls, and fetching stops (silently, no error) at the end of the first
page at which the collected count reaches `MAX_COMMENTS` — so the
result's size is bounded by `MAX_COMMENTS - 1` plus the largest page the
provider yields (it is NOT trimmed to exactly `MAX_COMMENTS`; see the
counterexample). -/
theorem c5_pagination_bounds (san : Str → Str) (f : Nat → Except PErr Page)
    (g : String → Nat → Except PErr Page) (parent : String) :
    (fetchTopLevel san f).2 ≤ MAX_PAGES ∧
    (∀ l, (fetchTopLevel san f).1 = .ok l →
      l.length ≤ MAX_COMMENTS - 1 + pageBound f) ∧
    (pagedLoop false (buildComment san (some parent)) (g parent)
      MAX_PAGES [] 0).2 ≤ MAX_PAGES ∧
    (getReplies san g parent).length ≤ MAX_COMMENTS - 1 + pageBound (g parent) := by
  refine ⟨?_, ?_, ?_, ?_⟩
  · have h := pagedLoop_calls_le true (buildComment san none) f MAX_PAGES [] 0
    simpa [fetchTopLevel] using h
  · intro l hl
    unfold fetchTopLevel at hl
    have h := pagedLoop_ok_length true (buildComment san none) f MAX_PAGES
      [] 0 l (by omega) hl
    simpa using h
  · have h := pagedLoop_calls_le false (buildComment san (some parent))
      (g parent) MAX_PAGES [] 0
    simpa using h
  · unfold getReplies
    cases hres : pagedLoop false (buildComment san (some parent)) (g parent)
        MAX_PAGES [] 0 with
    | mk r c =>
      cases r with
      | error e => simp
      | ok l =>
        have h := pagedLoop_ok_length false (buildComment san (some parent))
          (g parent) MAX_PAGES [] 0 l (by omega) (by rw [hres])
        simpa using h

/-- Witness for C5 at a concrete provider (a single empty page): the
loop stops after one call, within the page budget, and the size bound
holds. -/
theorem c5_pagination_bounds_witness :
    (fetchTopLevel sanId c5fEmpty).1 = .ok [] ∧
    (fetchTopLevel sanId c5fEmpty).2 ≤ MAX_PAGES ∧
    ([] : List RawC).length ≤ MAX_COMMENTS - 1 + pageBound c5fEmpty := by
  have h : (fetchTopLevel sanId c5fEmpty).1 = .ok [] := rfl
  exact ⟨h, (c5_pagination_bounds sanId c5fEmpty (fun _ => c5fEmpty) "p").1,
    (c5_pagination_bounds sanId c5fEmpty (fun _ => c5fEmpty) "p").2.1 [] h⟩

/-- Counterexample to C5 as stated: against a provider whose first page
holds `MAX_COMMENTS + 1` valid items, the top-level loop returns all
`MAX_COMMENTS + 1` of them — the collected items are not truncated at
exactly `MAX_COMMENTS`; the ceiling only stops further fetching at the
page boundary. -/
theorem c5_counterexample :
    (fetchTopLevel sanId c5f).1 =
      .ok (List.replicate (MAX_COMMENTS + 1) (buildComment sanId none c5item)) ∧
    MAX_COMMENTS <
      (List.replicate (MAX_COMMENTS + 1) (buildComment sanId none c5item)).length := by
  have hvalid : validItem c5item = true := by decide
  have hf : c5f 0 = .ok c5bigPage := rfl
  have hne : c5bigPage.items.isEmpty = false := by
    simp [c5bigPage, List.replicate_succ]
  have hbig : MAX_COMMENTS ≤ (([] : List RawC) ++
      (c5bigPage.items.filter validItem).map (buildComment sanId none)).length := by
    simp [c5bigPage, List.filter_replicate_of_pos hvalid]
  have heq := pagedLoop_first_page_hits_max true (buildComment sanId none)
    c5f MAX_PAGES [] 0 c5bigPage
    (by decide) (by decide) hf hne hbig
  constructor
  · unfold fetchTopLevel
    rw [heq]
    simp [c5bigPage, List.filter_replicate_of_pos hvalid]
  · simp

/-- C6.  A reply-fetch failure for one top-level comment does not abort
`fetch_all_comments`: the collected result is exactly each top-level
comment followed by its own thread's replies (so every top-level comment
is present, in order, and each thread's contribution depends only on its
own reply provider), and a thread whose reply fetch fails on its first
page contributes the top-level comment with its replies omitted. -/
theorem c6_reply_failure_isolated (san : Str → Str)
    (g : String → Nat → Except PErr Page) (tops : List RawC) :
    collectWithReplies san g tops =
      tops.flatMap (fun c => c :: getReplies san g c.cid) ∧
    ∀ parent e, g parent 0 = .error e → getReplies san g parent = [] := by
  constructor
  · unfold collectWithReplies
    rw [foldl_collect_append]
    simp
  · exact fun parent e h => getReplies_error_first_page san g parent e h

/-- Witness for C6: five top-level comments, the reply fetch of `t1`
failing with HTTP 403 — `t1`'s replies are omitted while the failure
stays confined to that thread. -/
theorem c6_reply_failure_isolated_witness :
    c6g "t1" 0 = .error { status := 403, msg := "forbidden" } ∧
    getReplies sanId c6g "t1" = [] :=
  ⟨rfl,
   (c6_reply_failure_isolated sanId c6g c6tops).2 "t1"
     { status := 403, msg := "forbidden" } rfl⟩

/-- C3 (code evaluated at the failing input).  A run whose every comment
fails classification (here: a classifier that raises on each of the
non-empty input's items) is not rejected with a "classification
unavailable" error: it completes with an empty record set and an
all-zero aggregate. -/
theorem c3_total_failure_completes_with_zero :
    runClassifyPersist [] false none c3clf "v" "a1" [] c3raws =
      .ok ([], { total := 0, positive := 0, negative := 0, neutral := 0 }) := by
  have hm : classifyStage [] false none c3clf "v" "a1" c3raws = [] := by
    simp [classifyStage, c3raws, sampleRaw, analyzeSent, cleanText_nil_hi,
      c3clf, pyStrip, dropTrail, isPySpace]
  unfold runClassifyPersist
  rw [if_neg (by decide)]
  rw [hm]
  rfl

/-- C1 (amended).  For every run that completes, the Analysis counts
satisfy `total = positive + negative + neutral` (the persistence step
rejects any record whose sentiment is not one of the three
`sentiment_enum` values, so completed runs have canonically classified
records only), and `total` equals the number of Comment records built by
the classification stage and submitted for persistence.  (The number of
rows actually created with this analysis's ID can be smaller: an ID
already present from an earlier analysis is skipped, first-writer-wins —
see the counterexample.) -/
theorem c1_aggregate_consistency (d : List (Str × Str)) (swap : Bool)
    (id2 : Option (Nat → Option String)) (clf : Str → Option String)
    (vid aid : String) (db : Store) (raws : List RawC) (db1 : Store)
    (s : Summary)
    (h : runClassifyPersist d swap id2 clf vid aid db raws = .ok (db1, s)) :
    s.total = s.positive + s.negative + s.neutral ∧
    s.total = (classifyStage d swap id2 clf vid aid raws).length := by
  unfold runClassifyPersist at h
  by_cases hr : raws.isEmpty
  · rw [if_pos hr] at h
    cases h
  · rw [if_neg hr] at h
    cases hp : persistComments db (classifyStage d swap id2 clf vid aid raws) with
    | error e =>
      rw [hp] at h
      cases h
    | ok db2 =>
      rw [hp] at h
      cases h
      have hall : ∀ c ∈ classifyStage d swap id2 clf vid aid raws,
          canonicalSent c.sentiment := by
        unfold persistComments at hp
        by_cases h2 : (classifyStage d swap id2 clf vid aid raws).all validRow
        · intro c hc
          exact List.all_eq_true.mp h2 c hc
        · rw [if_neg h2] at hp
          cases hp
      exact ⟨countP_sentiment_partition _ hall, rfl⟩

/-- Witness for C1 at a concrete completed run: one comment classified
`positive`, summary `total = 1 = 1 + 0 + 0`, one record built. -/
theorem c1_aggregate_consistency_witness :
    runClassifyPersist [] false none c1clf "v" "a1" [] c1raws =
      .ok ([("c1", sampleRec "c1" "a1" "positive")],
           { total := 1, positive := 1, negative := 0, neutral := 0 }) ∧
    ({ total := 1, positive := 1, negative := 0, neutral := 0 } : Summary).total =
        ({ total := 1, positive := 1, negative := 0, neutral := 0 } : Summary).positive +
        ({ total := 1, positive := 1, negative := 0, neutral := 0 } : Summary).negative +
        ({ total := 1, positive := 1, negative := 0, neutral := 0 } : Summary).neutral ∧
    ({ total := 1, positive := 1, negative := 0, neutral := 0 } : Summary).total =
      (classifyStage [] false none c1clf "v" "a1" c1raws).length := by
  have hrun : runClassifyPersist [] false none c1clf "v" "a1" [] c1raws =
      .ok ([("c1", sampleRec "c1" "a1" "positive")],
           { total := 1, positive := 1, negative := 0, neutral := 0 }) := by
    unfold runClassifyPersist
    rw [if_neg (by decide)]
    rw [c1_classify_eval]
    rfl
  refine ⟨hrun, ?_⟩
  exact c1_aggregate_consistency [] false none c1clf "v" "a1" [] c1raws
    _ _ hrun

/-- Counterexample to C1 as stated: when comment ID `c1` already exists
from an earlier analysis `a0`, a completed re-ingestion run under
analysis `a1` reports `total = 1`, yet zero Comment rows exist with
analysis ID `a1` (the insert was a conflict no-op), so `total` does not
equal the number of rows created and persisted by that run. -/
theorem c1_counterexample :
    runClassifyPersist [] false none c1clf "v" "a1" c1db c1raws =
      .ok (c1db, { total := 1, positive := 1, negative := 0, neutral := 0 }) ∧
    storeCountAnalysis c1db "a1" = 0 := by
  constructor
  · unfold runClassifyPersist
    rw [if_neg (by decide)]
    rw [c1_classify_eval]
    rfl
  · decide

/-- C9.  `analyze_batch` returns one result per input text, in input
order: the output has the length of the input, and its `i`-th entry is
the classification of the `i`-th input text — with a blank or
whitespace-only text replaced by a single `" "` before the batch call
(`safeText`), not dropped and not an error. -/
theorem c9_batch_order {σ : Type} (swap : Bool)
    (id2 : Option (Nat → Option String)) (g : String → ClfOut σ)
    (texts : List String) :
    (analyzeBatch swap id2 g texts).length = texts.length ∧
    ∀ i : Nat, (analyzeBatch swap id2 g texts)[i]? =
      texts[i]?.map (fun t =>
        (normalizeLabel swap id2 (g (safeText t)).label, (g (safeText t)).score)) := by
  unfold analyzeBatch
  by_cases he : texts.isEmpty
  · rw [if_pos he]
    rw [List.isEmpty_iff] at he
    subst he
    exact ⟨rfl, fun i => by simp⟩
  · rw [if_neg he]
    refine ⟨by simp, fun i => ?_⟩
    rw [List.getElem?_map, List.getElem?_map, Option.map_map]
    rfl

/-- C10.  For every slang dictionary and every input string, the output of
`clean_text` is in whitespace normal form: no leading whitespace, no
trailing whitespace, and no run of two or more consecutive whitespace
characters; consequently `clean_text` never returns a non-empty
whitespace-only string, so the downstream blank check (`text.strip()`
empty) holds exactly when the output itself is the empty string. -/
theorem c10_output_ws_normal (d : List (Str × Str)) (s : Str) :
    wsNormalB (cleanText d s) = true ∧
    (pyStrip (cleanText d s) = [] ↔ cleanText d s = []) := by
  have h1 : wsNormalB (cleanText d s) = true := by
    rw [c10helper_cleanText_shape]
    exact wsNormal_strip_collapse _
  refine ⟨h1, ?_⟩
  rw [pyStrip_id_of_wsNormal _ h1]

/-- C4 (counterexample).  With the slang dictionary `{gpp ↦ tidak}` and
input `"gpp!"`, the code's order (slang replacement after the non-alphabet
filter) yields `"tidak"`, while the spec's listed order (slang replacement
at step 6, before the step-7 filter) yields `"gpp"`: in the code the `!`
has already become whitespace when the token is looked up, in the spec's
order the token is still `"gpp!"` and misses the dictionary. -/
theorem c4_counterexample :
    cleanText c4dict ['g', 'p', 'p', '!'] = ['t', 'i', 'd', 'a', 'k'] ∧
    cleanTextSpecOrder c4dict ['g', 'p', 'p', '!'] = ['g', 'p', 'p'] ∧
    cleanText c4dict ['g', 'p', 'p', '!'] ≠
      cleanTextSpecOrder c4dict ['g', 'p', 'p', '!'] := by
  have s1 : pyLower ['g', 'p', 'p', '!'] = ['g', 'p', 'p', '!'] := by decide
  have s2 : removeUrl ['g', 'p', 'p', '!'] = ['g', 'p', 'p', '!'] := by
    simp [removeUrl]
  have s3 : removeTag '@' ['g', 'p', 'p', '!'] = ['g', 'p', 'p', '!'] := by
    simp [removeTag, isWordChar]
  have s4 : removeTag '#' ['g', 'p', 'p', '!'] = ['g', 'p', 'p', '!'] := by
    simp [removeTag, isWordChar]
  have s5 : removeEmoji ['g', 'p', 'p', '!'] = ['g', 'p', 'p', '!'] := by decide
  have s6 : collapseAlnum ['g', 'p', 'p', '!'] = ['g', 'p', 'p', '!'] := by
    simp [collapseAlnum, isAlnumCh]
  have s7 : collapsePunct ['g', 'p', 'p', '!'] = ['g', 'p', 'p', '!'] := by
    simp [collapsePunct, isPunct4]
  have e1 : cleanText c4dict ['g', 'p', 'p', '!'] = ['t', 'i', 'd', 'a', 'k'] := by
    unfold cleanText
    rw [s1, s2, s3, s4, s5, s6, s7]
    have s8 : removeNonAlphabet ['g', 'p', 'p', '!'] = ['g', 'p', 'p', ' '] := by
      decide
    rw [s8]
    have s9 : normalizeSlang c4dict ['g', 'p', 'p', ' '] =
        ['t', 'i', 'd', 'a', 'k'] := by
      simp [normalizeSlang, splitWs, joinSpace, slangLookup, c4dict, isPySpace]
    rw [s9]
    have s10 : collapseWs ['t', 'i', 'd', 'a', 'k'] = ['t', 'i', 'd', 'a', 'k'] := by
      simp [collapseWs, isPySpace]
    rw [s10]
    decide
  have e2 : cleanTextSpecOrder c4dict ['g', 'p', 'p', '!'] = ['g', 'p', 'p'] := by
    unfold cleanTextSpecOrder
    rw [s1, s2, s3, s4, s5, s6, s7]
    have t8 : normalizeSlang c4dict ['g', 'p', 'p', '!'] = ['g', 'p', 'p', '!'] := by
      simp [normalizeSlang, splitWs, joinSpace, slangLookup, c4dict, isPySpace]
    rw [t8]
    have t9 : removeNonAlphabet ['g', 'p', 'p', '!'] = ['g', 'p', 'p', ' '] := by
      decide
    rw [t9]
    have t10 : collapseWs ['g', 'p', 'p', ' '] = ['g', 'p', 'p', ' '] := by
      simp [collapseWs, isPySpace]
    rw [t10]
    decide
  refine ⟨e1, e2, ?_⟩
  rw [e1, e2]
  decide

/-- C4 (amended).  For every input string and every slang dictionary,
`clean_text` applies its stages in the spec's listed order amended at
steps 6/7 only: the non-alphabet filter (dropping characters outside
`[a-z\s]`) runs BEFORE slang-dictionary replacement, so each slang token
is looked up only after its non-letter characters have already been turned
into whitespace. -/
theorem c4_stage_order (d : List (Str × Str)) (s : Str) :
    cleanText d s = cleanTextAmendedOrder d s := rfl

/-- C8 (counterexample).  `clean_text` is not idempotent, even with an
empty slang dictionary: on input `"htttpx"` the first pass collapses the
repeated characters into `"httpx"` (the URL scanner sees no `http` in
`"htttpx"`), and a second pass then removes `"httpx"` as a URL, giving the
empty string. -/
theorem c8_counterexample :
    cleanText [] ['h', 't', 't', 't', 'p', 'x'] = ['h', 't', 't', 'p', 'x'] ∧
    cleanText [] (cleanText [] ['h', 't', 't', 't', 'p', 'x']) = [] ∧
    cleanText [] (cleanText [] ['h', 't', 't', 't', 'p', 'x']) ≠
      cleanText [] ['h', 't', 't', 't', 'p', 'x'] := by
  have e1 : cleanText [] ['h', 't', 't', 't', 'p', 'x'] =
      ['h', 't', 't', 'p', 'x'] := by
    unfold cleanText
    have s1 : pyLower ['h', 't', 't', 't', 'p', 'x'] =
        ['h', 't', 't', 't', 'p', 'x'] := by decide
    rw [s1]
    have s2 : removeUrl ['h', 't', 't', 't', 'p', 'x'] =
        ['h', 't', 't', 't', 'p', 'x'] := by simp [removeUrl]
    rw [s2]
    have s3 : removeTag '@' ['h', 't', 't', 't', 'p', 'x'] =
        ['h', 't', 't', 't', 'p', 'x'] := by simp [removeTag, isWordChar]
    rw [s3]
    have s4 : removeTag '#' ['h', 't', 't', 't', 'p', 'x'] =
        ['h', 't', 't', 't', 'p', 'x'] := by simp [removeTag, isWordChar]
    rw [s4]
    have s5 : removeEmoji ['h', 't', 't', 't', 'p', 'x'] =
        ['h', 't', 't', 't', 'p', 'x'] := by decide
    rw [s5]
    have s6 : collapseAlnum ['h', 't', 't', 't', 'p', 'x'] =
        ['h', 't', 't', 'p', 'x'] := by simp [collapseAlnum, isAlnumCh, isAsciiAlpha]
    rw [s6]
    have s7 : collapsePunct ['h', 't', 't', 'p', 'x'] =
        ['h', 't', 't', 'p', 'x'] := by simp [collapsePunct, isPunct4]
    rw [s7]
    have s8 : removeNonAlphabet ['h', 't', 't', 'p', 'x'] =
        ['h', 't', 't', 'p', 'x'] := by decide
    rw [s8]
    have s9 : normalizeSlang [] ['h', 't', 't', 'p', 'x'] =
        ['h', 't', 't', 'p', 'x'] := by
      simp [normalizeSlang, splitWs, joinSpace, slangLookup, isPySpace]
    rw [s9]
    have s10 : collapseWs ['h', 't', 't', 'p', 'x'] =
        ['h', 't', 't', 'p', 'x'] := by simp [collapseWs, isPySpace]
    rw [s10]
    decide
  have e2 : cleanText [] ['h', 't', 't', 'p', 'x'] = [] := by
    unfold cleanText
    have t1 : pyLower ['h', 't', 't', 'p', 'x'] = ['h', 't', 't', 'p', 'x'] := by
      decide
    rw [t1]
    have t2 : removeUrl ['h', 't', 't', 'p', 'x'] = [] := by simp [removeUrl, isPySpace]
    rw [t2]
    have t3 : removeTag '@' ([] : Str) = [] := by simp [removeTag]
    rw [t3]
    have t4 : removeTag '#' ([] : Str) = [] := by simp [removeTag]
    rw [t4]
    have t5 : removeEmoji ([] : Str) = [] := by decide
    rw [t5]
    have t6 : collapseAlnum ([] : Str) = [] := by simp [collapseAlnum]
    rw [t6]
    have t7 : collapsePunct ([] : Str) = [] := by simp [collapsePunct]
    rw [t7]
    have t8 : removeNonAlphabet ([] : Str) = [] := by decide
    rw [t8]
    have t9 : normalizeSlang [] ([] : Str) = [] := by
      rw [normalizeSlang_nil, splitWs_nil]
      rfl
    rw [t9]
    have t10 : collapseWs ([] : Str) = [] := by simp [collapseWs]
    rw [t10]
    decide
  refine ⟨e1, ?_, ?_⟩
  · rw [e1]; exact e2
  · rw [e1, e2]; decide

/-- C8 (amended).  With an empty slang dictionary, `clean_text` is
idempotent on every input whose first-pass output is a fixed point of the
URL-removal and repeated-character-collapse stages (the two stages that
can act again on already-clean text): under those two hypotheses, every
other stage fixes `clean_text`'s output — it is lowercase
letters-and-spaces in whitespace normal form — so a second pass returns
the first pass's output unchanged. -/
theorem c8_idempotent_conditional (s : Str)
    (h1 : removeUrl (cleanText [] s) = cleanText [] s)
    (h2 : collapseAlnum (cleanText [] s) = cleanText [] s) :
    cleanText [] (cleanText [] s) = cleanText [] s := by
  have hchars : ∀ c ∈ cleanText [] s,
      (97 ≤ c.toNat ∧ c.toNat ≤ 122) ∨ c = ' ' := cleanText_nil_chars s
  have hnorm : wsNormalB (cleanText [] s) = true := by
    rw [c10helper_cleanText_shape]
    exact wsNormal_strip_collapse _
  have hnorm' := hnorm
  unfold wsNormalB at hnorm'
  rw [Bool.and_eq_true, Bool.and_eq_true] at hnorm'
  obtain ⟨⟨hh, hl⟩, hnd⟩ := hnorm'
  have hhead : ∀ c t, cleanText [] s = c :: t → isPySpace c = false := by
    intro c t hct
    rw [hct] at hh
    simpa using hh
  have hlast : ∀ c, (cleanText [] s).getLast? = some c → isPySpace c = false := by
    intro c hc
    rw [hc] at hl
    simpa using hl
  have htag : ∀ tg : Char, tg.toNat < 97 → tg ≠ ' ' →
      removeTag tg (cleanText [] s) = cleanText [] s := by
    intro tg htg hsp
    apply removeTag_id_of_not_mem
    intro c hc heq
    rcases hchars c hc with ⟨ha, _⟩ | hspc
    · subst heq
      omega
    · rw [hspc] at heq
      exact hsp heq.symm
  rw [c10helper_cleanText_shape [] (cleanText [] s)]
  rw [pyLower_id_of_chars _ hchars, h1, htag '@' (by decide) (by decide),
    htag '#' (by decide) (by decide), removeEmoji_id_of_chars _ hchars, h2,
    collapsePunct_id_of_chars _ hchars, removeNonAlphabet_id_of_chars _ hchars,
    normalizeSlang_nil,
    joinSplit_id_aux (cleanText [] s).length (cleanText [] s) le_rfl hchars
      hnd hhead hlast,
    collapseWs_id_of_normal _ hchars hnd, pyStrip_id_of_wsNormal _ hnorm]

/-- Witness for C8 (amended) at the concrete input `"hi"`, whose clean
form `"hi"` is fixed by the URL and repeated-character stages. -/
theorem c8_idempotent_conditional_witness :
    cleanText [] (cleanText [] ['h', 'i']) = cleanText [] ['h', 'i'] :=
  c8_idempotent_conditional ['h', 'i']
    (by rw [cleanText_nil_hi]; simp [removeUrl])
    (by rw [cleanText_nil_hi]; simp [collapseAlnum])

end YTSent
